import Mathlib

/-!
# JUSTin: file staging and conversion orchestration (`script.js`)

A shallow embedding of the page script.  The HTML document is not among the
sources, so the model describes a page whose document contains the elements the
script looks up and dereferences without a null check (the three inputs, their
list wrappers, list containers, clear buttons, trigger buttons and output
areas).  What the document alone decides (the `multiple` attribute of an input,
the initial label and disabled flag of a button, the initial content of an
output area, the presence of the toast container, of the navigation button and
of the tab panel) is kept as data of the state.

JavaScript numbers are taken as exact rationals.  Results of browser and
library calls are symbolic: an object URL is identified with the blob it
refers to, a data URL with the file or rendering it encodes.
-/

namespace JUSTin

/-! ## Data model -/

/-- A staged file handle: `file.name` and `file.type` (the MIME type). -/
structure File where
  name : String
  type : String
  deriving DecidableEq, Repr

/-- The three upload slots, named by the `inputId` passed to `setupFileUpload`. -/
inductive SlotId
  | imageToPdfInput
  | removeBgInput
  | pdfToImageInput
  deriving DecidableEq, Repr

/-- Second argument of `showToast`. -/
inductive ToastType
  | success
  | error
  deriving DecidableEq, Repr

/-- One toast appended to `#toast-container`. -/
structure Toast where
  message : String
  type : ToastType
  deriving DecidableEq, Repr

/-- A trigger button: `textContent` and `disabled`. -/
structure Button where
  textContent : String
  disabled : Bool
  deriving DecidableEq, Repr

/-- The `thumbnailHtml` of a list item: an `<img>` whose `src` is the object URL
of the file and whose `alt` is the substituted text, or one of the two icons. -/
inductive Thumbnail
  | img (src : File) (alt : String)
  | pdfIcon
  | fileIcon
  deriving DecidableEq, Repr

/-- One `div.file-list-item` of the listing: the thumbnail markup and the text
substituted into `<span class="file-name">`. -/
structure FileListItem where
  thumbnail : Thumbnail
  fileName : String
  deriving DecidableEq, Repr

/-- A document built by jsPDF: the page size and, per page, the images placed
on it as `(imageData, imgWidth, imgHeight)` at the origin, the last page being
the current one. -/
structure Pdf where
  pageWidth : ℚ
  pageHeight : ℚ
  pages : List (List (File × ℚ × ℚ))
  deriving DecidableEq

/-- A child node of an output area. -/
inductive OutNode
  /-- Markup the document shipped with. -/
  | initial (n : Nat)
  /-- The spinner written by `showLoader`. -/
  | loader
  /-- Plain text written through `innerHTML`. -/
  | text (s : String)
  /-- The anchor `<a href=url download="converted.pdf">Download PDF</a>`. -/
  | pdfLink (pdf : Pdf)
  /-- The preview of the segmented image of `file`. -/
  | preview (file : File)
  /-- The anchor `<a href=url download=...>Download PNG</a>` of the segmented image. -/
  | pngLink (file : File) (download : String)
  /-- The anchor around the rendering of page `page` of `file` at `scale`. -/
  | pageLink (file : File) (page : Nat) (scale : ℚ) (download : String)
  deriving DecidableEq

/-- What `setupFileUpload` closes over for one slot, with its trigger button and
output area. -/
structure Slot where
  /-- The attribute `inputElement.multiple`. -/
  multiple : Bool
  /-- The entry `fileInputs.get(inputId)`. -/
  files : List File
  /-- The element `document.getElementById(buttonId)`. -/
  button : Button
  /-- Whether `fileListWrapper.style.display` is `block` (else `none`). -/
  wrapperShown : Bool
  /-- The children of `fileListContainer`. -/
  listing : List FileListItem
  /-- The children of `outputArea`. -/
  output : List OutNode
  deriving DecidableEq

/-! ## `escapeHtml` -/

/-- The serialisation of one character of a text node (HTML standard, "escaping
a string", not in attribute mode): `&`, U+00A0, `<` and `>` are replaced, every
other character, the double quote included, is kept. -/
def escapeChar (c : Char) : List Char :=
  if c = '&' then "&amp;".toList
  else if c = Char.ofNat 160 then "&nbsp;".toList
  else if c = '<' then "&lt;".toList
  else if c = '>' then "&gt;".toList
  else [c]

/-- The function `escapeHtml(str)`: a text node holding `str` is appended to a
fresh `div` and the `innerHTML` of the `div` is read back. -/
def escapeHtml (str : String) : String :=
  String.mk (str.toList.flatMap escapeChar)

/-! ## Generic file handling (`setupFileUpload`) -/

/-- The list item built by the body of `currentFiles.forEach` in `renderFileList`;
`file.type.startsWith('image/')` is the prefix test on the characters. -/
def fileElement (file : File) : FileListItem :=
  let isImage := "image/".toList.isPrefixOf file.type.toList
  let isPdf := file.type == "application/pdf"
  let thumbnailHtml :=
    if isImage then Thumbnail.img file (escapeHtml file.name)
    else if isPdf then Thumbnail.pdfIcon
    else Thumbnail.fileIcon
  { thumbnail := thumbnailHtml, fileName := escapeHtml file.name }

/-- The function `renderFileList()`.  The early return on an empty list leaves
the container as just emptied, which is what mapping over the empty list gives. -/
def renderFileList (s : Slot) : Slot :=
  let currentFiles := s.files
  { s with
    button := { s.button with disabled := currentFiles.length == 0 }
    wrapperShown := decide (currentFiles.length > 0)
    listing := if currentFiles.length == 0 then [] else currentFiles.map fileElement }

/-- The function `handleFiles(files)`. -/
def handleFiles (s : Slot) (files : List File) : Slot :=
  let fileList := files
  if s.multiple then
    renderFileList { s with files := s.files ++ fileList }
  else
    renderFileList { s with files := fileList }

/-- The click listener of `clearBtn`. -/
def clearBtnClick (s : Slot) : Slot :=
  renderFileList { s with files := [], output := [] }

/-- The slot as `setupFileUpload` leaves it: `fileInputs.set(inputId, [])`, all
else as the document has it. -/
def setupFileUpload (multiple : Bool) (button : Button) (wrapperShown : Bool)
    (listing : List FileListItem) (output : List OutNode) : Slot :=
  { multiple := multiple, files := [], button := button, wrapperShown := wrapperShown,
    listing := listing, output := output }

/-- A mutating operation on a slot: an add (`handleFiles`) or the clear button. -/
inductive StageOp
  | add (files : List File)
  | clear
  deriving DecidableEq

/-- The effect of one staging operation. -/
def StageOp.apply (s : Slot) : StageOp → Slot
  | .add files => handleFiles s files
  | .clear => clearBtnClick s

/-! ## Fit-to-page computation of the image aggregation -/

/-- Lines 190-200 of the `imageToPdfBtn` handler: the placed size
`(imgWidth, imgHeight)` of an image of size `width` by `height` on a page of
size `pageWidth` by `pageHeight`.  Division is that of the rationals, which
agrees with the division of JavaScript numbers away from a zero divisor. -/
def fitToPage (width height pageWidth pageHeight : ℚ) : ℚ × ℚ :=
  let imgRatio := width / height
  let pageRatio := pageWidth / pageHeight
  if imgRatio > pageRatio then
    (pageWidth, pageWidth / imgRatio)
  else
    (pageHeight * imgRatio, pageHeight)

/-- The method `pdf.addPage()`: a new empty page becomes the current one. -/
def Pdf.addPage (pdf : Pdf) : Pdf :=
  { pdf with pages := pdf.pages ++ [[]] }

/-- The call `pdf.addImage(imageData, 'JPEG', 0, 0, imgWidth, imgHeight)`: the
image goes on the current page. -/
def Pdf.addImage (pdf : Pdf) (imageData : File) (imgWidth imgHeight : ℚ) : Pdf :=
  { pdf with
    pages := pdf.pages.dropLast ++
      [pdf.pages.getLast?.getD [] ++ [(imageData, imgWidth, imgHeight)]] }

/-! ## Download name of the segmentation result -/

/-- The method `String.prototype.lastIndexOf(c)` for a one-character `c`: the
greatest index holding `c`, or `-1`.  The accumulator is the index of the head. -/
def lastIndexOfFrom (c : Char) : List Char → Nat → Int
  | [], _ => -1
  | d :: rest, i =>
    let later := lastIndexOfFrom c rest (i + 1)
    if later ≠ -1 then later else if d = c then (i : Int) else -1

/-- The call `s.lastIndexOf(c)`. -/
def lastIndexOf (s : List Char) (c : Char) : Int :=
  lastIndexOfFrom c s 0

/-- The operator `a || b` on numbers: `a` when it is truthy (non-zero), else `b`. -/
def jsOr (a b : Int) : Int :=
  if a ≠ 0 then a else b

/-- The method `String.prototype.substring(start, end)`: both arguments are
clamped to `[0, length]` and swapped when out of order. -/
def substring (s : List Char) (start stop : Int) : List Char :=
  let len : Int := s.length
  let finalStart := min (max start 0) len
  let finalEnd := min (max stop 0) len
  let lo := min finalStart finalEnd
  let hi := max finalStart finalEnd
  (s.drop lo.toNat).take (hi.toNat - lo.toNat)

/-- Line 247: `file.name.substring(0, file.name.lastIndexOf('.') || file.name.length)`. -/
def originalFileName (name : String) : String :=
  String.mk (substring name.toList 0 (jsOr (lastIndexOf name.toList '.') name.toList.length))

/-- The value substituted into the `download` attribute on line 253. -/
def downloadName (name : String) : String :=
  originalFileName name ++ "-no-bg.png"

/-! ## Page state -/

/-- The tab button `#remove-bg-nav-btn`: whether it carries the class `disabled`
and whether the capturing listener that stops its clicks is installed. -/
structure NavBtn where
  disabledClass : Bool
  clickSuppressed : Bool
  deriving DecidableEq

/-- The content of the panel `#remove-bg-tab`. -/
inductive TabContent
  /-- The markup the document shipped with. -/
  | original
  /-- The notice `div.feature-unavailable`. -/
  | featureUnavailable
  deriving DecidableEq

/-- Where an activation of the `imageToPdfBtn` handler is waiting.  `newPdf`,
`add` and `output` wait for a synchronous jsPDF call, `read` and `load` for an
awaited promise. -/
inductive ImagePc
  /-- The call `new jsPDF()`. -/
  | newPdf
  /-- The call `await readFileAsDataURL(file)` with `file = files[i]`. -/
  | read (pdf : Pdf) (i : Nat) (file : File)
  /-- The call `await loadImage(imageData)`. -/
  | load (pdf : Pdf) (i : Nat) (file : File)
  /-- The calls `if (i > 0) pdf.addPage(); pdf.addImage(...)`. -/
  | add (pdf : Pdf) (i : Nat) (file : File) (imgWidth imgHeight : ℚ)
  /-- The call `pdf.output('blob')`. -/
  | output (pdf : Pdf)
  deriving DecidableEq

/-- Where an activation of the `pdfToImageBtn` handler is waiting. -/
inductive PagesPc
  /-- The call `await readFileAsArrayBuffer(file)`. -/
  | read
  /-- The call `await pdfjsLib.getDocument(...).promise`. -/
  | getDocument
  /-- The call `await pdf.getPage(i)`. -/
  | getPage (numPages i : Nat)
  /-- The call `await page.render(...).promise`. -/
  | render (numPages i : Nat)
  deriving DecidableEq

/-- An activation of a trigger handler suspended at an external call, with the
locals it holds.  A `removeBg` activation waits for `removeBackground(file, ...)`. -/
inductive Run
  | imageToPdf (files : List File) (pc : ImagePc)
  | removeBg (file : File)
  | pdfToImage (file : File) (pc : PagesPc)
  deriving DecidableEq

/-- The slot a run belongs to. -/
def Run.slot : Run → SlotId
  | .imageToPdf _ _ => .imageToPdfInput
  | .removeBg _ => .removeBgInput
  | .pdfToImage _ _ => .pdfToImageInput

/-- Whether the run is inside synchronous code, so that nothing else can be
scheduled before it goes on. -/
def Run.atSync : Run → Bool
  | .imageToPdf _ .newPdf => true
  | .imageToPdf _ (.add _ _ _ _ _) => true
  | .imageToPdf _ (.output _) => true
  | _ => false

/-- What an external call gives back. -/
inductive Ext
  /-- The call throws, or its promise rejects. -/
  | fail
  /-- The call succeeds; no value of it is inspected. -/
  | ok
  /-- The object made by `new jsPDF()`, with its page size. -/
  | pdf (pageWidth pageHeight : ℚ)
  /-- The image resolved by `loadImage`, with `img.width` and `img.height`. -/
  | img (width height : ℚ)
  /-- The document resolved by `getDocument`, with `pdf.numPages`. -/
  | doc (numPages : Nat)
  deriving DecidableEq

/-- The page: the three slots, the toasts appended to the container so far
(their timed removal is not modelled), whether `window.imgly.removeBackground`
is a function, the two elements `checkFeatureAvailability` touches, and the
handler activations in flight, each under a number that tells them apart. -/
structure Page where
  imageToPdf : Slot
  removeBg : Slot
  pdfToImage : Slot
  /-- Whether `#toast-container` exists. -/
  toastContainer : Bool
  toasts : List Toast
  imgly : Bool
  removeBgNavBtn : Option NavBtn
  removeBgTabContent : Option TabContent
  runs : List (Nat × Run)
  nextId : Nat
  deriving DecidableEq

/-- The slot of the given id. -/
def Page.slot (p : Page) : SlotId → Slot
  | .imageToPdfInput => p.imageToPdf
  | .removeBgInput => p.removeBg
  | .pdfToImageInput => p.pdfToImage

/-- The page with one slot replaced. -/
def Page.setSlot (p : Page) (k : SlotId) (s : Slot) : Page :=
  match k with
  | .imageToPdfInput => { p with imageToPdf := s }
  | .removeBgInput => { p with removeBg := s }
  | .pdfToImageInput => { p with pdfToImage := s }

/-- The function `showToast(message, type)`. -/
def showToast (p : Page) (message : String) (type : ToastType) : Page :=
  if !p.toastContainer then p
  else { p with toasts := p.toasts ++ [{ message := message, type := type }] }

/-- The function `setButtonState(button, text, disabled)` on the trigger of a slot. -/
def setButtonState (p : Page) (k : SlotId) (text : String) (disabled : Bool) : Page :=
  p.setSlot k { p.slot k with button := { textContent := text, disabled := disabled } }

/-- An assignment to `innerHTML` of the output area of a slot. -/
def setOutput (p : Page) (k : SlotId) (nodes : List OutNode) : Page :=
  p.setSlot k { p.slot k with output := nodes }

/-- The function `showLoader(element)` on the output area of a slot. -/
def showLoader (p : Page) (k : SlotId) : Page :=
  setOutput p k [.loader]

/-! ## Conversion orchestrators -/

/-- The label each handler restores in its `finally` block. -/
def idleLabel : SlotId → String
  | .imageToPdfInput => "Convert to PDF"
  | .removeBgInput => "Remove Background"
  | .pdfToImageInput => "Convert to Images"

/-- The label each handler sets before its `try` block. -/
def busyLabel : SlotId → String
  | .imageToPdfInput => "Converting..."
  | .removeBgInput => "Processing..."
  | .pdfToImageInput => "Converting..."

/-- The message of the toast shown when the slot is empty. -/
def validationMessage : SlotId → String
  | .imageToPdfInput => "Please select at least one image."
  | .removeBgInput => "Please select an image."
  | .pdfToImageInput => "Please select a PDF file."

/-- The text each `catch` block writes into the output area. -/
def errorText : SlotId → String
  | .imageToPdfInput => "An error occurred during conversion."
  | .removeBgInput => "An error occurred. The image format might not be supported."
  | .pdfToImageInput =>
    "An error occurred during conversion. The PDF might be corrupted or protected."

/-- The message of the toast each `catch` block shows. -/
def errorMessage : SlotId → String
  | .imageToPdfInput => "An error occurred during PDF conversion."
  | .removeBgInput => "Failed to remove background."
  | .pdfToImageInput => "Error converting PDF. It may be corrupted or protected."

/-- The `catch` block of a handler. -/
def catchBlock (p : Page) (k : SlotId) : Page :=
  showToast (setOutput p k [.text (errorText k)]) (errorMessage k) .error

/-- The `finally` block of a handler. -/
def finallyBlock (p : Page) (k : SlotId) : Page :=
  setButtonState p k (idleLabel k) false

/-- The run of the given number goes on from a new place. -/
def Page.suspend (p : Page) (id : Nat) (r : Run) : Page :=
  { p with runs := p.runs.map fun e => if e.1 = id then (id, r) else e }

/-- The run of the given number has left its handler. -/
def Page.retire (p : Page) (id : Nat) : Page :=
  { p with runs := p.runs.filter fun e => e.1 ≠ id }

/-- The run of the given number, when in flight. -/
def Page.run? (p : Page) (id : Nat) : Option Run :=
  (p.runs.find? fun e => e.1 = id).map Prod.snd

/-- Whether some run is inside synchronous code. -/
def Page.busy (p : Page) : Bool :=
  p.runs.any fun e => e.2.atSync

/-- The head of the loop `for (let i = 0; i < files.length; i++)` with
`const file = files[i]`, and the code after the loop. -/
def imageLoop (files : List File) (pdf : Pdf) (i : Nat) : ImagePc :=
  match files.get? i with
  | some file => .read pdf i file
  | none => .output pdf

/-- The message of the toast after a rasterization. -/
def convertedMessage (numPages : Nat) : String :=
  "Converted " ++ toString numPages ++ " page(s) successfully!"

/-- The value of the template `page_${i}.png`. -/
def pageDownload (i : Nat) : String :=
  "page_" ++ toString i ++ ".png"

/-- The head of the loop `for (let i = 1; i <= numPages; i++)` of the
rasterization and the code after the loop, `finally` included. -/
def pagesLoop (p : Page) (id : Nat) (file : File) (numPages i : Nat) : Page :=
  if i ≤ numPages then
    p.suspend id (.pdfToImage file (.getPage numPages i))
  else
    finallyBlock (showToast (p.retire id) (convertedMessage numPages) .success)
      .pdfToImageInput

/-- The value of `Math.round(progress.progress * 100)`. -/
def percentage (progress : ℚ) : Int :=
  ⌊progress * 100 + 1 / 2⌋

/-- The `onProgress` callback passed to `removeBackground`. -/
def onProgress (p : Page) (progress : ℚ) : Page :=
  setButtonState p .removeBgInput
    ("Processing... " ++ toString (percentage progress) ++ "%") true

/-- The run `r` of number `id` goes on with the result `x` of the call it
waits for, up to its next external call or to the end of its handler.  A result
of the wrong shape for the pending call is not delivered. -/
def resume (p : Page) (id : Nat) (r : Run) (x : Ext) : Page :=
  match r with
  | .imageToPdf files pc =>
    match pc, x with
    | _, .fail => finallyBlock (catchBlock (p.retire id) .imageToPdfInput) .imageToPdfInput
    | .newPdf, .pdf pageWidth pageHeight =>
      p.suspend id (.imageToPdf files
        (imageLoop files { pageWidth := pageWidth, pageHeight := pageHeight, pages := [[]] } 0))
    | .read pdf i file, .ok => p.suspend id (.imageToPdf files (.load pdf i file))
    | .load pdf i file, .img width height =>
      let fit := fitToPage width height pdf.pageWidth pdf.pageHeight
      p.suspend id (.imageToPdf files (.add pdf i file fit.1 fit.2))
    | .add pdf i file imgWidth imgHeight, .ok =>
      let pdf1 := if i > 0 then pdf.addPage else pdf
      let pdf2 := pdf1.addImage file imgWidth imgHeight
      p.suspend id (.imageToPdf files (imageLoop files pdf2 (i + 1)))
    | .output pdf, .ok =>
      finallyBlock
        (showToast (setOutput (p.retire id) .imageToPdfInput [.pdfLink pdf])
          "PDF created successfully!" .success)
        .imageToPdfInput
    | _, _ => p
  | .removeBg file =>
    match x with
    | .fail => finallyBlock (catchBlock (p.retire id) .removeBgInput) .removeBgInput
    | .ok =>
      finallyBlock
        (showToast
          (setOutput (p.retire id) .removeBgInput
            [.preview file, .pngLink file (downloadName file.name)])
          "Background removed successfully!" .success)
        .removeBgInput
    | _ => p
  | .pdfToImage file pc =>
    match pc, x with
    | _, .fail => finallyBlock (catchBlock (p.retire id) .pdfToImageInput) .pdfToImageInput
    | .read, .ok => p.suspend id (.pdfToImage file .getDocument)
    | .getDocument, .doc numPages =>
      pagesLoop (setOutput p .pdfToImageInput []) id file numPages 1
    | .getPage numPages i, .ok => p.suspend id (.pdfToImage file (.render numPages i))
    | .render numPages i, .ok =>
      let q := setOutput p .pdfToImageInput
        ((p.slot .pdfToImageInput).output ++ [.pageLink file i (3 / 2) (pageDownload i)])
      pagesLoop q id file numPages (i + 1)
    | _, _ => p

/-- A new run enters the list of runs in flight. -/
def Page.spawn (p : Page) (r : Run) : Page :=
  { p with runs := p.runs ++ [(p.nextId, r)], nextId := p.nextId + 1 }

/-- The click listener of the trigger of a slot, up to its first external call. -/
def triggerClick (p : Page) (k : SlotId) : Page :=
  match (p.slot k).files with
  | [] => showToast p (validationMessage k) .error
  | file :: rest =>
    let q := showLoader (setButtonState p k (busyLabel k) true) k
    match k with
    | .imageToPdfInput => q.spawn (.imageToPdf (file :: rest) .newPdf)
    | .removeBgInput =>
      if q.imgly then q.spawn (.removeBg file)
      else finallyBlock (catchBlock q .removeBgInput) .removeBgInput
    | .pdfToImageInput => q.spawn (.pdfToImage file .read)

/-- The function `checkFeatureAvailability()`. -/
def checkFeatureAvailability (p : Page) : Page :=
  if !p.imgly then
    { p with
      removeBgNavBtn := p.removeBgNavBtn.map fun _ =>
        { disabledClass := true, clickSuppressed := true }
      removeBgTabContent := p.removeBgTabContent.map fun _ => .featureUnavailable }
  else p

/-- What the event loop can dispatch. -/
inductive Event
  /-- Files dropped on the drop area of a slot. -/
  | drop (k : SlotId) (files : List File)
  /-- Files chosen in the picker of a slot. -/
  | change (k : SlotId) (files : List File)
  /-- A click on the clear button of a slot. -/
  | clear (k : SlotId)
  /-- A click on the trigger of a slot, by the user or through `click()`. -/
  | click (k : SlotId)
  /-- The external call the run `id` waits for gives `x`. -/
  | settle (id : Nat) (x : Ext)
  /-- The segmentation the run `id` waits for reports progress. -/
  | progress (id : Nat) (fraction : ℚ)
  /-- The `load` event of the window. -/
  | load
  deriving DecidableEq

/-- One turn of the event loop.  An event that cannot be dispatched in the state
(a click on a disabled button, a result for a run that is not in flight or of
the wrong shape, anything but its own result while a run is inside synchronous
code) leaves the page as it is. -/
def step (p : Page) : Event → Page
  | .drop k files => if p.busy then p else p.setSlot k (handleFiles (p.slot k) files)
  | .change k files => if p.busy then p else p.setSlot k (handleFiles (p.slot k) files)
  | .clear k => if p.busy then p else p.setSlot k (clearBtnClick (p.slot k))
  | .click k =>
    if p.busy then p
    else if (p.slot k).button.disabled then p
    else triggerClick p k
  | .settle id x =>
    match p.run? id with
    | none => p
    | some r => if p.busy && !r.atSync then p else resume p id r x
  | .progress id fraction =>
    match p.run? id with
    | some (.removeBg _) => if p.busy then p else onProgress p fraction
    | _ => p
  | .load => if p.busy then p else checkFeatureAvailability p

/-- The page after a sequence of events. -/
def exec (p : Page) (events : List Event) : Page :=
  events.foldl step p

/-- Whether the run of the given number is in flight. -/
def Page.inFlight (p : Page) (id : Nat) : Bool :=
  p.runs.any fun e => e.1 == id

end JUSTin

namespace JUSTin

/-! ## Runs observed from outside -/

/-- A run that leaves its handler through `catch` and `finally`. -/
def failedPage (p : Page) (id : Nat) (k : SlotId) : Page :=
  finallyBlock (catchBlock (p.retire id) k) k

/-- What is known of a page `q` reached from `p` by one step of the run `id` of
slot `k`: the run goes on silently, or it has ended with the trigger idle. -/
structure RunStep (p q : Page) (id : Nat) (k : SlotId) (x : Ext) : Prop where
  nextId : q.nextId = p.nextId
  toastContainer : q.toastContainer = p.toastContainer
  imgly : q.imgly = p.imgly
  runs : ∀ e ∈ q.runs, e ∈ p.runs ∨ (e.1 = id ∧ e.2.slot = k ∧ p.inFlight id = true)
  slots : ∀ j, j ≠ k → q.slot j = p.slot j
  others : ∀ j, j ≠ id → q.run? j = p.run? j
  going : q.inFlight id = true → q.toasts = p.toasts
  ended : q.inFlight id = false → p.inFlight id = true →
    (q.slot k).button = { textContent := idleLabel k, disabled := false } ∧
    (x = .fail →
      (q.slot k).output = [.text (errorText k)] ∧
      q.toasts = if p.toastContainer then
        p.toasts ++ [{ message := errorMessage k, type := .error }] else p.toasts) ∧
    (x ≠ .fail → ∃ m, q.toasts = if p.toastContainer then
        p.toasts ++ [{ message := m, type := .success }] else p.toasts)

/-- The run numbers in flight are below the next number to hand out, `id` has
been handed out, and a run in flight under `id` belongs to the slot `k`. -/
def Page.Owns (p : Page) (id : Nat) (k : SlotId) : Prop :=
  id < p.nextId ∧ (∀ e ∈ p.runs, e.1 < p.nextId) ∧ ∀ e ∈ p.runs, e.1 = id → e.2.slot = k

/-- Whether the result the run `id` waits for can be delivered now: the run is
in flight and no other run is inside synchronous code. -/
def Page.ready (p : Page) (id : Nat) : Bool :=
  match p.run? id with
  | some r => !(p.busy && !r.atSync)
  | none => false

/-- Whether `x` is what the call the run waits for gives when it succeeds. -/
def Run.expects : Run → Ext → Bool
  | .imageToPdf _ .newPdf, .pdf _ _ => true
  | .imageToPdf _ (.read _ _ _), .ok => true
  | .imageToPdf _ (.load _ _ _), .img _ _ => true
  | .imageToPdf _ (.add _ _ _ _ _), .ok => true
  | .imageToPdf _ (.output _), .ok => true
  | .removeBg _, .ok => true
  | .pdfToImage _ .read, .ok => true
  | .pdfToImage _ .getDocument, .doc _ => true
  | .pdfToImage _ (.getPage _ _), .ok => true
  | .pdfToImage _ (.render _ _), .ok => true
  | _, _ => false

/-- A measure of what a run still has to do: a bound on the external calls left
once it is known, under the number of calls before it is known (the page count
of a document is known when `getDocument` has resolved). -/
def Run.rank : Run → Nat × Nat
  | .imageToPdf files .newPdf => (0, 3 * files.length + 5)
  | .imageToPdf files (.read _ i _) => (0, 3 * (files.length - i) + 4)
  | .imageToPdf files (.load _ i _) => (0, 3 * (files.length - i) + 3)
  | .imageToPdf files (.add _ i _ _ _) => (0, 3 * (files.length - i) + 2)
  | .imageToPdf _ (.output _) => (0, 1)
  | .removeBg _ => (0, 1)
  | .pdfToImage _ .read => (2, 0)
  | .pdfToImage _ .getDocument => (1, 0)
  | .pdfToImage _ (.getPage n i) => (0, 2 * (n + 1 - i) + 2)
  | .pdfToImage _ (.render n i) => (0, 2 * (n + 1 - i) + 1)

/-- The toasts the step on event `e` appends at page `p`. -/
def announced (p : Page) (e : Event) : List Toast :=
  (step p e).toasts.drop p.toasts.length

/-- Whether the event is a turn of the run `id`. -/
def Event.ofRun (id : Nat) : Event → Bool
  | .settle j _ => j == id
  | .progress j _ => j == id
  | _ => false

/-- The toasts the turns of the run `id` append along a sequence of events. -/
def toastsOf (id : Nat) : Page → List Event → List Toast
  | _, [] => []
  | p, e :: es => (if e.ofRun id then announced p e else []) ++ toastsOf id (step p e) es

/-- The result the event delivers to the run `id`, when it is one. -/
def Event.result? (id : Nat) : Event → Option Ext
  | .settle j x => if j = id then some x else none
  | _ => none

/-- Every result for the run `id` in the sequence is dispatched on a page that
can deliver it. -/
def delivered (id : Nat) : Page → List Event → Bool
  | _, [] => true
  | p, e :: es =>
    (match e.result? id with
      | some _ => p.ready id
      | none => true) && delivered id (step p e) es

/-- The results of a rasterization in which every call succeeds on a document
of `n` pages: the read, the parse, and per page the fetch and the rendering. -/
def rasterResults (n : Nat) : List Ext :=
  .ok :: .doc n :: List.replicate (2 * n) .ok

/-- The links of the first `n` pages of `file` as the rasterization appends them. -/
def pageLinks (file : File) (n : Nat) : List OutNode :=
  (List.range n).map fun j => .pageLink file (j + 1) (3 / 2) (pageDownload (j + 1))

/-- The `download` attribute of an output node, when it is a page link. -/
def OutNode.download? : OutNode → Option String
  | .pageLink _ _ _ download => some download
  | _ => none

/-- The run `id` has been handed out, run numbers are fresh, and `id` is the only
rasterization in flight. -/
def Page.Alone (p : Page) (id : Nat) : Prop :=
  id < p.nextId ∧ (∀ e ∈ p.runs, e.1 < p.nextId) ∧
    ∀ e ∈ p.runs, e.2.slot = .pdfToImageInput → e.1 = id

/-- Where the rasterization `id` of `file` stands on a page, with the results it
still has to receive when every call succeeds on a document of `n` pages. -/
inductive Rasterizing (id : Nat) (file : File) (n : Nat) : Page → List Ext → Prop
  | read (q : Page) : q.run? id = some (.pdfToImage file .read) →
      Rasterizing id file n q (.ok :: .doc n :: List.replicate (2 * n) .ok)
  | getDocument (q : Page) : q.run? id = some (.pdfToImage file .getDocument) →
      Rasterizing id file n q (.doc n :: List.replicate (2 * n) .ok)
  | getPage (q : Page) (j m : Nat) : j + 1 + m = n →
      q.run? id = some (.pdfToImage file (.getPage n (j + 1))) →
      q.pdfToImage.output = pageLinks file j →
      Rasterizing id file n q (.ok :: .ok :: List.replicate (2 * m) .ok)
  | render (q : Page) (j m : Nat) : j + 1 + m = n →
      q.run? id = some (.pdfToImage file (.render n (j + 1))) →
      q.pdfToImage.output = pageLinks file j →
      Rasterizing id file n q (.ok :: List.replicate (2 * m) .ok)
  | done (q : Page) : q.run? id = none → q.pdfToImage.output = pageLinks file n →
      Rasterizing id file n q []

/-! ## A concrete page -/

/-- The page right after the `DOMContentLoaded` listener has run on a document
whose image input is `multiple`, whose other inputs are not, whose triggers
start disabled under their idle labels and whose output areas start empty. -/
def startPage (imgly : Bool) : Page :=
  { imageToPdf := setupFileUpload true ⟨idleLabel .imageToPdfInput, true⟩ false [] []
    removeBg := setupFileUpload false ⟨idleLabel .removeBgInput, true⟩ false [] []
    pdfToImage := setupFileUpload false ⟨idleLabel .pdfToImageInput, true⟩ false [] []
    toastContainer := true
    toasts := []
    imgly := imgly
    removeBgNavBtn := some { disabledClass := false, clickSuppressed := false }
    removeBgTabContent := some .original
    runs := []
    nextId := 0 }

/-- A JPEG photograph. -/
def photo : File := { name := "photo.jpg", type := "image/jpeg" }

/-- A second image. -/
def scan : File := { name := "scan.png", type := "image/png" }

/-- A PDF document. -/
def report : File := { name := "report.pdf", type := "application/pdf" }

/-- The page of the staged photograph on a document without `#toast-container`. -/
def silentPage : Page :=
  { step (startPage true) (.drop .imageToPdfInput [photo]) with toastContainer := false }

/-- The start page once one file has been dropped on the given slot. -/
def stagedPage (imgly : Bool) (k : SlotId) (file : File) : Page :=
  step (startPage imgly) (.drop k [file])

end JUSTin

namespace JUSTin

/-! ## Staging: `handleFiles`, the clear button and `renderFileList` -/

@[simp]
theorem renderFileList_files (s : Slot) : (renderFileList s).files = s.files := rfl

@[simp]
theorem renderFileList_listing_length (s : Slot) :
    (renderFileList s).listing.length = s.files.length := by
  cases h : s.files <;> simp [renderFileList, h]

@[simp]
theorem renderFileList_disabled (s : Slot) :
    (renderFileList s).button.disabled = decide (s.files = []) := by
  cases h : s.files <;> simp [renderFileList, h]

/-- C1: `handleFiles` on a slot whose input is `multiple` leaves the staged list
equal to the prior list followed by the incoming one, both in their order and
with nothing dropped; on a slot whose input is not `multiple` it leaves exactly
the incoming list, whatever was staged before. -/
theorem handleFiles_staged (s : Slot) (new : List File) :
    (s.multiple = true → (handleFiles s new).files = s.files ++ new) ∧
    (s.multiple = false → (handleFiles s new).files = new) := by
  constructor <;> intro h <;> simp [handleFiles, h]

/-- C2: from the slot `setupFileUpload` creates, after every operation of any
sequence of adds and clears the listing has as many items as the staged list and
the trigger is disabled exactly when the staged list is empty. -/
theorem listing_consistent (multiple : Bool) (button : Button) (wrapperShown : Bool)
    (listing : List FileListItem) (output : List OutNode)
    (ops : List StageOp) (op : StageOp) :
    let s := (ops ++ [op]).foldl StageOp.apply
      (setupFileUpload multiple button wrapperShown listing output)
    s.listing.length = s.files.length ∧ (s.button.disabled = true ↔ s.files = []) := by
  intro s
  have hs : s = StageOp.apply (ops.foldl StageOp.apply
      (setupFileUpload multiple button wrapperShown listing output)) op := by
    simp [s, List.foldl_append]
  rw [hs]
  cases op with
  | add files =>
    simp only [StageOp.apply, handleFiles]
    split <;> simp
  | clear => simp [StageOp.apply, clearBtnClick]

/-! ## Fit to page -/

/-- C3: for an image and a page of positive size, the placed width is the page
width when the image ratio exceeds the page ratio, and the placed height is the
page height otherwise, whatever the page; on a page of 77 by 100 a 2:1 image is clamped in width
and a 1:2 image in height. -/
theorem fitToPage_clamp (width height pageWidth pageHeight : ℚ)
    (hw : 0 < width) (hh : 0 < height) :
    (width / height > pageWidth / pageHeight →
      (fitToPage width height pageWidth pageHeight).1 = pageWidth) ∧
    (¬ width / height > pageWidth / pageHeight →
      (fitToPage width height pageWidth pageHeight).2 = pageHeight) ∧
    (fitToPage (2 * height) height 77 100).1 = 77 ∧
    (fitToPage width (2 * width) 77 100).2 = 100 := by
  refine ⟨?_, ?_, ?_, ?_⟩
  · intro h
    simp [fitToPage, h]
  · intro h
    simp [fitToPage, h]
  · have h2 : (2 * height) / height = 2 := by field_simp
    have : (77 : ℚ) / 100 < 2 := by norm_num
    simp [fitToPage, h2, this]
  · have h2 : width / (2 * width) = 1 / 2 := by field_simp; ring
    have : ¬ (77 : ℚ) / 100 < 1 / 2 := by norm_num
    simp only [fitToPage, h2, gt_iff_lt, this, if_false]

/-- The statement of C3 at a 200 by 100 image on a 77 by 100 page. -/
theorem fitToPage_clamp_witness :
    ((200 : ℚ) / 100 > 77 / 100 → (fitToPage 200 100 77 100).1 = 77) ∧
    (¬ (200 : ℚ) / 100 > 77 / 100 → (fitToPage 200 100 77 100).2 = 100) ∧
    (fitToPage (2 * 100) 100 77 100).1 = 77 ∧
    (fitToPage 200 (2 * 200) 77 100).2 = 100 :=
  fitToPage_clamp 200 100 77 100 (by norm_num) (by norm_num)

/-- C4: for an image and a page of positive size the placed rectangle has the
ratio of the image, is positive, lies within the page, touches the page in one
dimension, and every positive rectangle of that ratio within the page is no
wider and no taller. -/
theorem fitToPage_largest (width height pageWidth pageHeight : ℚ)
    (hw : 0 < width) (hh : 0 < height) (hpw : 0 < pageWidth) (hph : 0 < pageHeight) :
    (fitToPage width height pageWidth pageHeight).1 /
        (fitToPage width height pageWidth pageHeight).2 = width / height ∧
    0 < (fitToPage width height pageWidth pageHeight).1 ∧
    (fitToPage width height pageWidth pageHeight).1 ≤ pageWidth ∧
    0 < (fitToPage width height pageWidth pageHeight).2 ∧
    (fitToPage width height pageWidth pageHeight).2 ≤ pageHeight ∧
    ((fitToPage width height pageWidth pageHeight).1 = pageWidth ∨
      (fitToPage width height pageWidth pageHeight).2 = pageHeight) ∧
    ∀ a b : ℚ, 0 < a → 0 < b → a / b = width / height → a ≤ pageWidth → b ≤ pageHeight →
      a ≤ (fitToPage width height pageWidth pageHeight).1 ∧
      b ≤ (fitToPage width height pageWidth pageHeight).2 := by
  generalize hW : (fitToPage width height pageWidth pageHeight).1 = imgWidth
  generalize hH : (fitToPage width height pageWidth pageHeight).2 = imgHeight
  have hr : 0 < width / height := div_pos hw hh
  by_cases h : width / height > pageWidth / pageHeight
  · have e1 : imgWidth = pageWidth := by simp [← hW, fitToPage, h]
    have e2 : imgHeight = pageWidth / (width / height) := by simp [← hH, fitToPage, h]
    have hlt : pageWidth / (width / height) < pageHeight := by
      rw [div_lt_iff₀ hr]
      rw [gt_iff_lt, div_lt_iff₀ hph] at h
      linarith [mul_comm (width / height) pageHeight]
    rw [e1, e2]
    refine ⟨?_, hpw, le_refl _, div_pos hpw hr, le_of_lt hlt, Or.inl rfl, ?_⟩
    · field_simp; ring
    · intro a b ha hb hab ha2 _
      refine ⟨ha2, ?_⟩
      rw [le_div_iff₀ hr, ← hab]
      have : b * (a / b) = a := by field_simp
      rw [this]
      exact ha2
  · have e1 : imgWidth = pageHeight * (width / height) := by simp [← hW, fitToPage, h]
    have e2 : imgHeight = pageHeight := by simp [← hH, fitToPage, h]
    have hle : width / height ≤ pageWidth / pageHeight := not_lt.mp h
    have hle2 : pageHeight * (width / height) ≤ pageWidth := by
      rw [le_div_iff₀ hph] at hle
      linarith [mul_comm (width / height) pageHeight]
    rw [e1, e2]
    refine ⟨?_, mul_pos hph hr, hle2, hph, le_refl _, Or.inr rfl, ?_⟩
    · field_simp; ring
    · intro a b ha hb hab _ hb2
      refine ⟨?_, hb2⟩
      rw [← hab]
      have : a = b * (a / b) := by field_simp
      calc a = b * (a / b) := this
        _ ≤ pageHeight * (a / b) := by
          apply mul_le_mul_of_nonneg_right hb2
          exact le_of_lt (div_pos ha hb)

end JUSTin

namespace JUSTin

/-! ## Frame lemmas for the page operations -/

@[simp]
theorem slot_setSlot (p : Page) (k j : SlotId) (s : Slot) :
    (p.setSlot k s).slot j = if j = k then s else p.slot j := by
  cases k <;> cases j <;> rfl

@[simp]
theorem setSlot_runs (p : Page) (k : SlotId) (s : Slot) : (p.setSlot k s).runs = p.runs := by
  cases k <;> rfl

@[simp]
theorem setSlot_nextId (p : Page) (k : SlotId) (s : Slot) :
    (p.setSlot k s).nextId = p.nextId := by
  cases k <;> rfl

@[simp]
theorem setSlot_toasts (p : Page) (k : SlotId) (s : Slot) :
    (p.setSlot k s).toasts = p.toasts := by
  cases k <;> rfl

@[simp]
theorem setSlot_toastContainer (p : Page) (k : SlotId) (s : Slot) :
    (p.setSlot k s).toastContainer = p.toastContainer := by
  cases k <;> rfl

@[simp]
theorem setSlot_imgly (p : Page) (k : SlotId) (s : Slot) : (p.setSlot k s).imgly = p.imgly := by
  cases k <;> rfl

@[simp]
theorem showToast_slot (p : Page) (m : String) (t : ToastType) (j : SlotId) :
    (showToast p m t).slot j = p.slot j := by
  unfold showToast
  split
  · rfl
  · cases j <;> rfl

@[simp]
theorem showToast_runs (p : Page) (m : String) (t : ToastType) :
    (showToast p m t).runs = p.runs := by
  unfold showToast
  split <;> rfl

@[simp]
theorem showToast_nextId (p : Page) (m : String) (t : ToastType) :
    (showToast p m t).nextId = p.nextId := by
  unfold showToast
  split <;> rfl

@[simp]
theorem showToast_toastContainer (p : Page) (m : String) (t : ToastType) :
    (showToast p m t).toastContainer = p.toastContainer := by
  unfold showToast
  split <;> rfl

@[simp]
theorem showToast_imgly (p : Page) (m : String) (t : ToastType) :
    (showToast p m t).imgly = p.imgly := by
  unfold showToast
  split <;> rfl

theorem showToast_toasts (p : Page) (m : String) (t : ToastType) :
    (showToast p m t).toasts =
      if p.toastContainer then p.toasts ++ [{ message := m, type := t }] else p.toasts := by
  unfold showToast
  cases p.toastContainer <;> rfl

@[simp]
theorem retire_slot (p : Page) (id : Nat) (j : SlotId) : (p.retire id).slot j = p.slot j := by
  cases j <;> rfl

@[simp]
theorem suspend_slot (p : Page) (id : Nat) (r : Run) (j : SlotId) :
    (p.suspend id r).slot j = p.slot j := by
  cases j <;> rfl

@[simp]
theorem spawn_slot (p : Page) (r : Run) (j : SlotId) : (p.spawn r).slot j = p.slot j := by
  cases j <;> rfl

@[simp]
theorem retire_inFlight (p : Page) (id : Nat) : (p.retire id).inFlight id = false := by
  simp [Page.retire, Page.inFlight]

@[simp]
theorem suspend_inFlight (p : Page) (id : Nat) (r : Run) (j : Nat) :
    (p.suspend id r).inFlight j = p.inFlight j := by
  simp only [Page.suspend, Page.inFlight, List.any_map]
  congr 1
  funext e
  simp only [Function.comp]
  split
  · next h => simp [h]
  · rfl

theorem inFlight_of_run? {p : Page} {id : Nat} {r : Run} (h : p.run? id = some r) :
    p.inFlight id = true := by
  obtain ⟨e, he, _⟩ := Option.map_eq_some'.mp h
  have h1 := List.mem_of_find?_eq_some he
  have h2 := List.find?_some he
  simp only [Page.inFlight, List.any_eq_true]
  exact ⟨e, h1, by simpa using h2⟩

theorem run?_mem {p : Page} {id : Nat} {r : Run} (h : p.run? id = some r) :
    (id, r) ∈ p.runs := by
  obtain ⟨e, he, her⟩ := Option.map_eq_some'.mp h
  have h1 := List.mem_of_find?_eq_some he
  have h2 := List.find?_some he
  have : e = (id, r) := by
    cases e
    simp at h2 her
    simp [h2, her]
  exact this ▸ h1

theorem run?_none_of_not_inFlight {p : Page} {id : Nat} (h : p.inFlight id = false) :
    p.run? id = none := by
  cases hr : p.run? id with
  | none => rfl
  | some r => rw [inFlight_of_run? hr] at h; cases h

/-! ## What one step of a run does -/

@[simp]
theorem retire_nextId (p : Page) (id : Nat) : (p.retire id).nextId = p.nextId := rfl

@[simp]
theorem retire_toasts (p : Page) (id : Nat) : (p.retire id).toasts = p.toasts := rfl

@[simp]
theorem retire_toastContainer (p : Page) (id : Nat) :
    (p.retire id).toastContainer = p.toastContainer := rfl

@[simp]
theorem retire_imgly (p : Page) (id : Nat) : (p.retire id).imgly = p.imgly := rfl

@[simp]
theorem suspend_nextId (p : Page) (id : Nat) (r : Run) : (p.suspend id r).nextId = p.nextId :=
  rfl

@[simp]
theorem suspend_toasts (p : Page) (id : Nat) (r : Run) : (p.suspend id r).toasts = p.toasts :=
  rfl

@[simp]
theorem suspend_toastContainer (p : Page) (id : Nat) (r : Run) :
    (p.suspend id r).toastContainer = p.toastContainer := rfl

@[simp]
theorem suspend_imgly (p : Page) (id : Nat) (r : Run) : (p.suspend id r).imgly = p.imgly := rfl

theorem find?_map_ne (l : List (Nat × Run)) (id j : Nat) (r : Run) (h : j ≠ id) :
    (l.map fun e => if e.1 = id then (id, r) else e).find? (fun e => decide (e.1 = j)) =
      l.find? fun e => decide (e.1 = j) := by
  induction l with
  | nil => rfl
  | cons a l ih =>
    rw [List.map_cons, List.find?_cons, List.find?_cons, ih]
    by_cases ha : a.1 = id
    · have hj : ¬ a.1 = j := fun h1 => h (h1.symm.trans ha)
      have hj2 : ¬ id = j := fun h1 => h h1.symm
      simp [ha, hj2, hj]
    · simp only [ha, if_false]

theorem find?_filter_ne (l : List (Nat × Run)) (id j : Nat) (h : j ≠ id) :
    (l.filter fun e => decide (e.1 ≠ id)).find? (fun e => decide (e.1 = j)) =
      l.find? fun e => decide (e.1 = j) := by
  induction l with
  | nil => rfl
  | cons a l ih =>
    by_cases ha : a.1 = id
    · have hj : ¬ a.1 = j := fun h1 => h (h1.symm.trans ha)
      have hf : decide (a.1 ≠ id) = false := by simp [ha]
      rw [List.filter_cons_of_neg (by simp [ha]), List.find?_cons, ih]
      simp only [hj, decide_False]
    · rw [List.filter_cons_of_pos (by simp [ha]), List.find?_cons, List.find?_cons, ih]

theorem run?_suspend_ne (p : Page) (id j : Nat) (r : Run) (h : j ≠ id) :
    (p.suspend id r).run? j = p.run? j := by
  simp only [Page.run?, Page.suspend]
  rw [find?_map_ne p.runs id j r h]

theorem run?_retire_ne (p : Page) (id j : Nat) (h : j ≠ id) :
    (p.retire id).run? j = p.run? j := by
  simp only [Page.run?, Page.retire]
  rw [find?_filter_ne p.runs id j h]

theorem RunStep.refl (p : Page) (id : Nat) (k : SlotId) (x : Ext)
    (h : p.inFlight id = true) : RunStep p p id k x where
  nextId := rfl
  toastContainer := rfl
  imgly := rfl
  runs := fun e he => Or.inl he
  slots := fun _ _ => rfl
  others := fun _ _ => rfl
  going := fun _ => rfl
  ended := fun h1 h2 => by rw [h] at h1; cases h1

theorem mem_suspend {p : Page} {id : Nat} {r : Run} {e : Nat × Run}
    (he : e ∈ (p.suspend id r).runs) : e ∈ p.runs ∨ (e = (id, r) ∧ p.inFlight id = true) := by
  simp only [Page.suspend, List.mem_map] at he
  obtain ⟨a, ha, rfl⟩ := he
  by_cases h : a.1 = id
  · right
    refine ⟨by simp [h], ?_⟩
    simp only [Page.inFlight, List.any_eq_true]
    exact ⟨a, ha, by simp [h]⟩
  · left
    simpa [h] using ha

theorem mem_retire {p : Page} {id : Nat} {e : Nat × Run}
    (he : e ∈ (p.retire id).runs) : e ∈ p.runs := by
  simp only [Page.retire, List.mem_filter] at he
  exact he.1

theorem RunStep.suspend (p : Page) (id : Nat) (r : Run) (x : Ext) :
    RunStep p (p.suspend id r) id r.slot x where
  nextId := rfl
  toastContainer := rfl
  imgly := rfl
  runs := fun e he => by
    rcases mem_suspend he with h | ⟨h, h2⟩
    · exact Or.inl h
    · exact Or.inr ⟨by rw [h], by rw [h], h2⟩
  slots := fun j _ => suspend_slot p id r j
  others := fun j hj => run?_suspend_ne p id j r hj
  going := fun _ => rfl
  ended := fun h1 h2 => by
    rw [suspend_inFlight] at h1
    rw [h1] at h2
    cases h2

theorem RunStep.failed (p : Page) (id : Nat) (k : SlotId) :
    RunStep p (failedPage p id k) id k .fail where
  nextId := by simp [failedPage, finallyBlock, catchBlock, setButtonState, setOutput]
  toastContainer := by simp [failedPage, finallyBlock, catchBlock, setButtonState, setOutput]
  imgly := by simp [failedPage, finallyBlock, catchBlock, setButtonState, setOutput]
  runs := fun e he => by
    left
    apply @mem_retire _ id
    simpa [failedPage, finallyBlock, catchBlock, setButtonState, setOutput] using he
  slots := fun j hj => by
    simp [failedPage, finallyBlock, catchBlock, setButtonState, setOutput, hj]
  others := fun j hj => by
    rw [← run?_retire_ne p id j hj]
    simp [failedPage, finallyBlock, catchBlock, setButtonState, setOutput, Page.run?]
  going := fun h => by
    simp [failedPage, finallyBlock, catchBlock, setButtonState, setOutput, Page.inFlight,
      Page.retire] at h
  ended := fun _ _ => by
    refine ⟨?_, fun _ => ⟨?_, ?_⟩, fun h => absurd rfl h⟩
    · simp [failedPage, finallyBlock, setButtonState]
    · simp [failedPage, finallyBlock, catchBlock, setButtonState, setOutput]
    · simp [failedPage, finallyBlock, catchBlock, setButtonState, setOutput, showToast_toasts]

theorem RunStep.succeeded (p q : Page) (id : Nat) (k : SlotId) (x : Ext) (m : String)
    (hx : x ≠ .fail) (nodes : List OutNode)
    (hq : q = finallyBlock (showToast (setOutput (p.retire id) k nodes) m .success) k) :
    RunStep p q id k x where
  nextId := by simp [hq, finallyBlock, setButtonState, setOutput]
  toastContainer := by simp [hq, finallyBlock, setButtonState, setOutput]
  imgly := by simp [hq, finallyBlock, setButtonState, setOutput]
  runs := fun e he => by
    left
    apply @mem_retire _ id
    simpa [hq, finallyBlock, setButtonState, setOutput] using he
  slots := fun j hj => by
    simp [hq, finallyBlock, setButtonState, setOutput, hj]
  others := fun j hj => by
    rw [← run?_retire_ne p id j hj]
    simp [hq, finallyBlock, setButtonState, setOutput, Page.run?]
  going := fun h => by
    simp [hq, finallyBlock, setButtonState, setOutput, Page.inFlight, Page.retire] at h
  ended := fun _ _ => by
    refine ⟨?_, fun h => absurd h hx, fun _ => ⟨m, ?_⟩⟩
    · simp [hq, finallyBlock, setButtonState]
    · simp [hq, finallyBlock, setButtonState, setOutput, showToast_toasts]

theorem RunStep.frame (p p1 q : Page) (id : Nat) (k : SlotId) (x : Ext)
    (h : RunStep p1 q id k x) (hr : p1.runs = p.runs) (hn : p1.nextId = p.nextId)
    (ht : p1.toasts = p.toasts) (hc : p1.toastContainer = p.toastContainer)
    (hi : p1.imgly = p.imgly) (hs : ∀ j, j ≠ k → p1.slot j = p.slot j) :
    RunStep p q id k x := by
  have hf : p1.inFlight id = p.inFlight id := by simp [Page.inFlight, hr]
  constructor
  · rw [h.nextId, hn]
  · rw [h.toastContainer, hc]
  · rw [h.imgly, hi]
  · intro e he
    rw [← hr, ← hf]
    exact h.runs e he
  · intro j hj
    rw [h.slots j hj, hs j hj]
  · intro j hj
    rw [h.others j hj]
    simp [Page.run?, hr]
  · intro hg
    rw [h.going hg, ht]
  · intro h1 h2
    rw [← hf] at h2
    have := h.ended h1 h2
    rw [ht, hc] at this
    exact this

theorem pagesLoop_runStep (p : Page) (id : Nat) (file : File) (numPages i : Nat) (x : Ext)
    (hx : x ≠ .fail) (nodes : List OutNode) :
    RunStep p (pagesLoop (setOutput p .pdfToImageInput nodes) id file numPages i) id
      .pdfToImageInput x := by
  unfold pagesLoop
  split
  · apply RunStep.frame p (setOutput p .pdfToImageInput nodes) _ id _ x
      (RunStep.suspend _ id (.pdfToImage file _) x) <;> simp +contextual [setOutput, Run.slot]
  · exact RunStep.succeeded p _ id _ x _ hx nodes rfl

theorem resume_runStep (p : Page) (id : Nat) (r : Run) (x : Ext)
    (h : p.inFlight id = true) : RunStep p (resume p id r x) id r.slot x := by
  cases r with
  | imageToPdf files pc =>
    cases x with
    | fail => cases pc <;> exact RunStep.failed p id _
    | ok =>
      cases pc with
      | read pdf i file => exact RunStep.suspend p id (.imageToPdf files _) _
      | add pdf i file w1 h1 => exact RunStep.suspend p id (.imageToPdf files _) _
      | output pdf => exact RunStep.succeeded p _ id _ _ _ (by simp) _ rfl
      | _ => exact RunStep.refl p id _ _ h
    | pdf w1 h1 =>
      cases pc with
      | newPdf => exact RunStep.suspend p id (.imageToPdf files _) _
      | _ => exact RunStep.refl p id _ _ h
    | img w1 h1 =>
      cases pc with
      | load pdf i file => exact RunStep.suspend p id (.imageToPdf files _) _
      | _ => exact RunStep.refl p id _ _ h
    | doc n => cases pc <;> exact RunStep.refl p id _ _ h
  | removeBg file =>
    cases x with
    | fail => exact RunStep.failed p id _
    | ok => exact RunStep.succeeded p _ id _ _ _ (by simp) _ rfl
    | _ => exact RunStep.refl p id _ _ h
  | pdfToImage file pc =>
    cases x with
    | fail => cases pc <;> exact RunStep.failed p id _
    | ok =>
      cases pc with
      | read => exact RunStep.suspend p id (.pdfToImage file _) _
      | getPage n i => exact RunStep.suspend p id (.pdfToImage file _) _
      | render n i => exact pagesLoop_runStep p id file n (i + 1) _ (by simp) _
      | _ => exact RunStep.refl p id _ _ h
    | doc n =>
      cases pc with
      | getDocument => exact pagesLoop_runStep p id file n 1 _ (by simp) _
      | _ => exact RunStep.refl p id _ _ h
    | _ => cases pc <;> exact RunStep.refl p id _ _ h

/-! ## What one turn of the event loop does to the runs -/

theorem triggerClick_runs (p : Page) (k : SlotId) :
    ((triggerClick p k).runs = p.runs ∧ (triggerClick p k).nextId = p.nextId) ∨
    ∃ r : Run, r.slot = k ∧ (triggerClick p k).runs = p.runs ++ [(p.nextId, r)] ∧
      (triggerClick p k).nextId = p.nextId + 1 := by
  unfold triggerClick
  cases (p.slot k).files with
  | nil => left; simp
  | cons file rest =>
    cases k with
    | imageToPdfInput =>
      right
      exact ⟨.imageToPdf (file :: rest) .newPdf, rfl, by simp [Page.spawn, showLoader, setOutput, setButtonState],
        by simp [Page.spawn, showLoader, setOutput, setButtonState]⟩
    | removeBgInput =>
      simp only
      split
      · right
        exact ⟨.removeBg file, rfl, by simp [Page.spawn, showLoader, setOutput, setButtonState],
          by simp [Page.spawn, showLoader, setOutput, setButtonState]⟩
      · left
        simp [finallyBlock, catchBlock, showLoader, setOutput, setButtonState]
    | pdfToImageInput =>
      right
      exact ⟨.pdfToImage file .read, rfl, by simp [Page.spawn, showLoader, setOutput, setButtonState],
        by simp [Page.spawn, showLoader, setOutput, setButtonState]⟩

theorem step_runs (p : Page) (e : Event) :
    p.nextId ≤ (step p e).nextId ∧
    ∀ a ∈ (step p e).runs, a ∈ p.runs ∨
      (∃ r, p.run? a.1 = some r ∧ a.2.slot = r.slot) ∨
      (a.1 = p.nextId ∧ (step p e).nextId = p.nextId + 1) := by
  cases e with
  | drop k files => simp only [step]; split <;> simp +contextual
  | change k files => simp only [step]; split <;> simp +contextual
  | clear k => simp only [step]; split <;> simp +contextual
  | click k =>
    simp only [step]
    split
    · simp +contextual
    · split
      · simp +contextual
      · rcases triggerClick_runs p k with ⟨h1, h2⟩ | ⟨r, _, h1, h2⟩
        · rw [h1, h2]
          simp +contextual
        · rw [h1, h2]
          refine ⟨Nat.le_succ _, fun a ha => ?_⟩
          rcases List.mem_append.mp ha with h | h
          · exact Or.inl h
          · right; right
            simp at h
            simp [h]
  | settle id x =>
    simp only [step]
    cases hr : p.run? id with
    | none => simp +contextual
    | some r =>
      simp only
      split
      · simp +contextual
      · have hs := resume_runStep p id r x (inFlight_of_run? hr)
        refine ⟨by rw [hs.nextId], fun a ha => ?_⟩
        rcases hs.runs a ha with h | ⟨h1, h2, _⟩
        · exact Or.inl h
        · right; left
          exact ⟨r, by rw [h1, hr], h2⟩
  | progress id fraction =>
    simp only [step]
    split
    · split
      · simp +contextual
      · simp +contextual [onProgress, setButtonState]
    · simp +contextual
  | load =>
    simp only [step]
    split
    · simp +contextual
    · unfold checkFeatureAvailability
      split <;> simp +contextual

theorem step_toastContainer (p : Page) (e : Event) :
    (step p e).toastContainer = p.toastContainer := by
  cases e with
  | drop k files => simp only [step]; split <;> simp
  | change k files => simp only [step]; split <;> simp
  | clear k => simp only [step]; split <;> simp
  | click k =>
    simp only [step]
    split
    · rfl
    · split
      · rfl
      · unfold triggerClick
        cases (p.slot k).files with
        | nil => simp
        | cons file rest =>
          cases k with
          | imageToPdfInput => simp [Page.spawn, showLoader, setOutput, setButtonState]
          | removeBgInput =>
            simp only
            split
            · simp [Page.spawn, showLoader, setOutput, setButtonState]
            · simp [finallyBlock, catchBlock, showLoader, setOutput, setButtonState]
          | pdfToImageInput => simp [Page.spawn, showLoader, setOutput, setButtonState]
  | settle id x =>
    simp only [step]
    cases hr : p.run? id with
    | none => rfl
    | some r =>
      simp only
      split
      · rfl
      · exact (resume_runStep p id r x (inFlight_of_run? hr)).toastContainer
  | progress id fraction =>
    simp only [step]
    split
    · split
      · rfl
      · simp [onProgress, setButtonState]
    · rfl
  | load =>
    simp only [step]
    split
    · rfl
    · unfold checkFeatureAvailability
      split <;> rfl

theorem step_owns (p : Page) (e : Event) (id : Nat) (k : SlotId) (h : p.Owns id k) :
    (step p e).Owns id k := by
  obtain ⟨h1, h2, h3⟩ := h
  obtain ⟨hn, hr⟩ := step_runs p e
  refine ⟨lt_of_lt_of_le h1 hn, fun a ha => ?_, fun a ha hid => ?_⟩
  · rcases hr a ha with h | ⟨r, hr1, _⟩ | ⟨ha1, ha2⟩
    · exact lt_of_lt_of_le (h2 a h) hn
    · exact lt_of_lt_of_le (h2 (a.1, r) (run?_mem hr1)) hn
    · rw [ha1, ha2]
      exact Nat.lt_succ_self _
  · rcases hr a ha with h | ⟨r, hr1, hr2⟩ | ⟨ha1, _⟩
    · exact h3 a h hid
    · rw [hr2]
      exact h3 (a.1, r) (run?_mem hr1) hid
    · omega

theorem step_stays_out (p : Page) (e : Event) (id : Nat) (k : SlotId) (h : p.Owns id k)
    (hout : p.inFlight id = false) : (step p e).inFlight id = false := by
  obtain ⟨h1, _, _⟩ := h
  obtain ⟨_, hr⟩ := step_runs p e
  by_contra hc
  have hc : (step p e).inFlight id = true := by simpa using hc
  simp only [Page.inFlight, List.any_eq_true] at hc
  obtain ⟨a, ha, hid⟩ := hc
  have hid : a.1 = id := by simpa using hid
  rcases hr a ha with h | ⟨r, hr1, _⟩ | ⟨ha1, _⟩
  · have : p.inFlight id = true := by
      simp only [Page.inFlight, List.any_eq_true]
      exact ⟨a, h, by simp [hid]⟩
    rw [hout] at this
    cases this
  · rw [hid, run?_none_of_not_inFlight hout] at hr1
    cases hr1
  · omega

theorem exec_owns (p : Page) (es : List Event) (id : Nat) (k : SlotId) (h : p.Owns id k) :
    (exec p es).Owns id k := by
  induction es generalizing p with
  | nil => exact h
  | cons e es ih => exact ih (step p e) (step_owns p e id k h)

theorem exec_stays_out (p : Page) (es : List Event) (id : Nat) (k : SlotId) (h : p.Owns id k)
    (hout : p.inFlight id = false) : (exec p es).inFlight id = false := by
  induction es generalizing p with
  | nil => exact hout
  | cons e es ih =>
    exact ih (step p e) (step_owns p e id k h) (step_stays_out p e id k h hout)

theorem exec_toastContainer (p : Page) (es : List Event) :
    (exec p es).toastContainer = p.toastContainer := by
  induction es generalizing p with
  | nil => rfl
  | cons e es ih => exact (ih (step p e)).trans (step_toastContainer p e)

/-! ## The toasts of one run -/

theorem run?_of_inFlight {p : Page} {id : Nat} (h : p.inFlight id = true) :
    ∃ r, p.run? id = some r := by
  simp only [Page.inFlight, List.any_eq_true] at h
  obtain ⟨a, ha, hid⟩ := h
  cases hf : p.runs.find? fun e => decide (e.1 = id) with
  | none =>
    have := List.find?_eq_none.mp hf a ha
    simp at hid
    simp [hid] at this
  | some b => exact ⟨b.2, by simp [Page.run?, hf]⟩

theorem run?_suspend (p : Page) (id : Nat) (r r1 : Run) (h : p.run? id = some r) :
    (p.suspend id r1).run? id = some r1 := by
  have hin : (p.suspend id r1).inFlight id = true := by
    rw [suspend_inFlight]
    exact inFlight_of_run? h
  obtain ⟨r2, hr2⟩ := run?_of_inFlight hin
  rcases mem_suspend (run?_mem hr2) with hm | ⟨hm, _⟩
  · have hmem := run?_mem hr2
    simp only [Page.suspend, List.mem_map] at hmem
    obtain ⟨a, _, ha2⟩ := hmem
    by_cases ha : a.1 = id
    · simp only [ha, if_true] at ha2
      rw [hr2]
      simp only [Prod.mk.injEq, true_and] at ha2
      rw [ha2]
    · simp only [ha, if_false] at ha2
      rw [ha2] at ha
      exact absurd rfl ha
  · rw [hr2]
    simp only [Prod.mk.injEq, true_and] at hm
    rw [hm]

@[simp]
theorem setOutput_run? (p : Page) (k : SlotId) (nodes : List OutNode) (id : Nat) :
    (setOutput p k nodes).run? id = p.run? id := by
  simp [setOutput, Page.run?]

theorem settle_runStep (p : Page) (id : Nat) (k : SlotId) (x : Ext) (h : p.Owns id k)
    (hin : p.inFlight id = true) : RunStep p (step p (.settle id x)) id k x := by
  obtain ⟨r, hr⟩ := run?_of_inFlight hin
  have hk : r.slot = k := h.2.2 (id, r) (run?_mem hr) rfl
  simp only [step, hr]
  split
  · exact RunStep.refl p id k x hin
  · rw [← hk]
    exact resume_runStep p id r x hin

theorem progress_toasts (p : Page) (id : Nat) (fraction : ℚ) :
    (step p (.progress id fraction)).toasts = p.toasts := by
  simp only [step]
  split
  · split
    · rfl
    · simp [onProgress, setButtonState]
  · rfl

theorem announced_going (p : Page) (e : Event) (id : Nat) (k : SlotId) (h : p.Owns id k)
    (ho : e.ofRun id = true) (hgo : (step p e).inFlight id = true) : announced p e = [] := by
  cases e with
  | settle j x =>
    have hj : j = id := by simpa [Event.ofRun] using ho
    subst hj
    by_cases hin : p.inFlight j = true
    · have hs := settle_runStep p j k x h hin
      simp [announced, hs.going hgo]
    · have hout : p.inFlight j = false := by simpa using hin
      simp [announced, step, run?_none_of_not_inFlight hout]
  | progress j fraction => simp [announced, progress_toasts]
  | _ => simp [Event.ofRun] at ho

theorem toastsOf_going (p : Page) (es : List Event) (id : Nat) (k : SlotId) (h : p.Owns id k)
    (hgo : (exec p es).inFlight id = true) : toastsOf id p es = [] := by
  induction es generalizing p with
  | nil => rfl
  | cons e es ih =>
    have hstep : (step p e).inFlight id = true := by
      by_contra hc
      have hc : (step p e).inFlight id = false := by simpa using hc
      have := exec_stays_out (step p e) es id k (step_owns p e id k h) hc
      simp only [exec, List.foldl_cons] at hgo
      simp only [exec] at this
      rw [this] at hgo
      cases hgo
    simp only [toastsOf]
    rw [ih (step p e) (step_owns p e id k h) hgo]
    by_cases ho : e.ofRun id = true
    · simp [ho, announced_going p e id k h ho hstep]
    · simp [ho]

theorem toastsOf_append (p : Page) (es fs : List Event) (id : Nat) :
    toastsOf id p (es ++ fs) = toastsOf id p es ++ toastsOf id (exec p es) fs := by
  induction es generalizing p with
  | nil => rfl
  | cons e es ih =>
    have h := ih (step p e)
    show _ ++ toastsOf id (step p e) (es ++ fs) = _ ++ toastsOf id (exec (step p e) es) fs
    rw [h, ← List.append_assoc]
    rfl

theorem triggerClick_outcome (p : Page) (k : SlotId) (hfresh : ∀ e ∈ p.runs, e.1 < p.nextId)
    (hval : (p.slot k).files ≠ []) :
    ((triggerClick p k).inFlight p.nextId = true ∧ (triggerClick p k).Owns p.nextId k ∧
      (triggerClick p k).toasts = p.toasts) ∨
    ((triggerClick p k).inFlight p.nextId = false ∧
      (k = .removeBgInput ∧ p.imgly = false) ∧
      ((triggerClick p k).slot k).button = { textContent := idleLabel k, disabled := false } ∧
      ((triggerClick p k).slot k).output = [.text (errorText k)] ∧
      (triggerClick p k).toasts =
        if p.toastContainer then p.toasts ++ [{ message := errorMessage k, type := .error }]
        else p.toasts) := by
  have hout : p.inFlight p.nextId = false := by
    by_contra hc
    have hc : p.inFlight p.nextId = true := by simpa using hc
    simp only [Page.inFlight, List.any_eq_true] at hc
    obtain ⟨a, ha, hid⟩ := hc
    have := hfresh a ha
    simp at hid
    omega
  have hspawn : ∀ (q : Page) (r : Run), q.runs = p.runs → q.nextId = p.nextId →
      q.toasts = p.toasts → r.slot = k →
      (q.spawn r).inFlight p.nextId = true ∧ (q.spawn r).Owns p.nextId k ∧
        (q.spawn r).toasts = p.toasts := by
    intro q r h1 h2 h3 h4
    refine ⟨by simp [Page.spawn, Page.inFlight, h2], ⟨?_, ?_, ?_⟩, h3⟩
    · simp [Page.spawn, h2]
    · intro e he
      simp only [Page.spawn, h1, h2, List.mem_append, List.mem_singleton] at he ⊢
      rcases he with he | he
      · exact Nat.lt_succ_of_lt (hfresh e he)
      · rw [he]
        exact Nat.lt_succ_self _
    · intro e he hid
      simp only [Page.spawn, h1, h2, List.mem_append, List.mem_singleton] at he
      rcases he with he | he
      · have := hfresh e he
        omega
      · rw [he, h4]
  unfold triggerClick
  cases hf : (p.slot k).files with
  | nil => exact absurd hf hval
  | cons file rest =>
    cases k with
    | imageToPdfInput =>
      left
      exact hspawn _ _ (by simp [showLoader, setOutput, setButtonState])
        (by simp [showLoader, setOutput, setButtonState])
        (by simp [showLoader, setOutput, setButtonState]) rfl
    | removeBgInput =>
      simp only
      split
      · left
        exact hspawn _ _ (by simp [showLoader, setOutput, setButtonState])
          (by simp [showLoader, setOutput, setButtonState])
          (by simp [showLoader, setOutput, setButtonState]) rfl
      · right
        next hi =>
        refine ⟨?_, ⟨trivial, ?_⟩, ?_, ?_, ?_⟩
        · simpa [finallyBlock, catchBlock, showLoader, setOutput, setButtonState, Page.inFlight]
            using hout
        · simpa [showLoader, setOutput, setButtonState] using hi
        · simp [finallyBlock, setButtonState]
        · simp [finallyBlock, catchBlock, setOutput, setButtonState]
        · simp [finallyBlock, catchBlock, showLoader, setOutput, setButtonState,
            showToast_toasts]
    | pdfToImageInput =>
      left
      exact hspawn _ _ (by simp [showLoader, setOutput, setButtonState])
        (by simp [showLoader, setOutput, setButtonState])
        (by simp [showLoader, setOutput, setButtonState]) rfl

theorem resume_fail (p : Page) (id : Nat) (r : Run) :
    resume p id r .fail = failedPage p id r.slot := by
  cases r with
  | imageToPdf files pc => cases pc <;> rfl
  | removeBg file => rfl
  | pdfToImage file pc => cases pc <;> rfl

theorem settle_ready (p : Page) (id : Nat) (x : Ext) (h : p.ready id = true) :
    ∃ r, p.run? id = some r ∧ step p (.settle id x) = resume p id r x := by
  unfold Page.ready at h
  cases hr : p.run? id with
  | none => simp [hr] at h
  | some r =>
    refine ⟨r, rfl, ?_⟩
    simp only [hr] at h
    simp only [step, hr]
    split
    · next hb => simp [hb] at h
    · rfl

theorem imageLoop_rank (files : List File) (pdf : Pdf) (i m : Nat)
    (h : i < files.length → 3 * (files.length - i) + 4 < m) (hm : 1 < m) :
    (Run.imageToPdf files (imageLoop files pdf i)).rank.2 < m ∧
      (Run.imageToPdf files (imageLoop files pdf i)).rank.1 = 0 := by
  unfold imageLoop
  split
  · next f1 hf =>
    have hlt : i < files.length := by
      by_contra hc
      have := List.get?_eq_none.mpr (Nat.le_of_not_lt hc)
      rw [this] at hf
      cases hf
    exact ⟨h hlt, rfl⟩
  · exact ⟨hm, rfl⟩

theorem resume_progress (p : Page) (id : Nat) (r : Run) (x : Ext)
    (hr : p.run? id = some r) (hx : r.expects x = true) :
    (resume p id r x).inFlight id = false ∨
      ∃ r1, (resume p id r x).run? id = some r1 ∧
        Prod.Lex (· < ·) (· < ·) r1.rank r.rank := by
  have lexr : ∀ r1 : Run, r1.rank.1 = r.rank.1 → r1.rank.2 < r.rank.2 →
      Prod.Lex (· < ·) (· < ·) r1.rank r.rank := by
    intro r1 h1 h2
    rw [Prod.lex_def]
    exact Or.inr ⟨h1, h2⟩
  have lexl : ∀ r1 : Run, r1.rank.1 < r.rank.1 →
      Prod.Lex (· < ·) (· < ·) r1.rank r.rank := by
    intro r1 h1
    rw [Prod.lex_def]
    exact Or.inl h1
  cases r with
  | imageToPdf files pc =>
    cases pc with
    | newPdf =>
      cases x <;> simp [Run.expects] at hx
      right
      refine ⟨_, run?_suspend p id _ _ hr, lexr _ ?_ ?_⟩
      · exact (imageLoop_rank files _ 0 (3 * files.length + 5) (by simp) (by omega)).2
      · exact (imageLoop_rank files _ 0 (3 * files.length + 5) (by simp) (by omega)).1
    | read pdf i file =>
      cases x <;> simp [Run.expects] at hx
      right
      exact ⟨_, run?_suspend p id _ _ hr, lexr _ rfl (by simp [Run.rank])⟩
    | load pdf i file =>
      cases x <;> simp [Run.expects] at hx
      right
      exact ⟨_, run?_suspend p id _ _ hr, lexr _ rfl (by simp [Run.rank])⟩
    | add pdf i file w1 h1 =>
      cases x <;> simp [Run.expects] at hx
      right
      refine ⟨_, run?_suspend p id _ _ hr, lexr _ ?_ ?_⟩
      · exact (imageLoop_rank files _ (i + 1) (3 * (files.length - i) + 2)
          (fun _ => by omega) (by omega)).2
      · exact (imageLoop_rank files _ (i + 1) (3 * (files.length - i) + 2)
          (fun _ => by omega) (by omega)).1
    | output pdf =>
      cases x <;> simp [Run.expects] at hx
      left
      simp [resume, finallyBlock, setButtonState, setOutput, Page.inFlight, Page.retire]
  | removeBg file =>
    cases x <;> simp [Run.expects] at hx
    left
    simp [resume, finallyBlock, setButtonState, setOutput, Page.inFlight, Page.retire]
  | pdfToImage file pc =>
    cases pc with
    | read =>
      cases x <;> simp [Run.expects] at hx
      right
      exact ⟨_, run?_suspend p id _ _ hr, lexl _ (by simp [Run.rank])⟩
    | getDocument =>
      cases x <;> simp [Run.expects] at hx
      simp only [resume]
      unfold pagesLoop
      split
      · right
        exact ⟨_, run?_suspend _ id _ _ (by rw [setOutput_run?]; exact hr),
          lexl _ (by simp [Run.rank])⟩
      · left
        simp [finallyBlock, setButtonState, setOutput, Page.inFlight, Page.retire]
    | getPage n i =>
      cases x <;> simp [Run.expects] at hx
      right
      exact ⟨_, run?_suspend p id _ _ hr, lexr _ rfl (by simp [Run.rank])⟩
    | render n i =>
      cases x <;> simp [Run.expects] at hx
      simp only [resume]
      unfold pagesLoop
      split
      · next hle =>
        right
        refine ⟨_, run?_suspend _ id _ _ (by rw [setOutput_run?]; exact hr), lexr _ rfl ?_⟩
        simp only [Run.rank]
        omega
      · left
        simp [finallyBlock, setButtonState, setOutput, Page.inFlight, Page.retire]

/-- C5 as amended: a click that passes the validation of its slot starts a run.
A failing call ends the run, and a successful one either ends it or leaves it
with strictly less to do.  Whenever the run ends, whatever else the page
dispatched meanwhile, the trigger is enabled under its idle label; when its
last call failed, the output area holds the error text of its slot and the run
has shown exactly one toast, the error toast of its slot, on a page with a toast
container and none on a page without; when no call failed, the toast is a
success toast.  A run that fails before its first suspension (segmentation
without the library) ends inside the click with the same outcome. -/
theorem orchestrator_cleanup (p : Page) (k : SlotId) (es : List Event) (x : Ext)
    (hfresh : ∀ e ∈ p.runs, e.1 < p.nextId) (hbusy : p.busy = false)
    (hen : (p.slot k).button.disabled = false) (hval : (p.slot k).files ≠ []) :
    let id := p.nextId
    let p1 := step p (.click k)
    let p2 := exec p1 es
    let p3 := step p2 (.settle id x)
    let idle : Button := { textContent := idleLabel k, disabled := false }
    let err : Toast := { message := errorMessage k, type := .error }
    (p1.inFlight id = false →
      (k = .removeBgInput ∧ p.imgly = false) ∧
      (p1.slot k).button = idle ∧
      (p1.slot k).output = [.text (errorText k)] ∧
      p1.toasts = if p.toastContainer then p.toasts ++ [err] else p.toasts) ∧
    (p1.inFlight id = true →
      p1.toasts = p.toasts ∧
      (p2.inFlight id = true →
        (p2.ready id = true → x = .fail → p3.inFlight id = false) ∧
        (p2.ready id = true → ∀ r, p2.run? id = some r → r.expects x = true →
          p3.inFlight id = false ∨
            ∃ r1, p3.run? id = some r1 ∧ Prod.Lex (· < ·) (· < ·) r1.rank r.rank) ∧
        (p3.inFlight id = false →
          (p3.slot k).button = idle ∧
          (x = .fail →
            (p3.slot k).output = [.text (errorText k)] ∧
            toastsOf id p1 (es ++ [.settle id x]) =
              if p.toastContainer then [err] else []) ∧
          (x ≠ .fail →
            ∃ m, toastsOf id p1 (es ++ [.settle id x]) =
              if p.toastContainer then [{ message := m, type := .success }] else [])))) := by
  intro id p1 p2 p3 idle err
  have hp1 : p1 = triggerClick p k := by simp [p1, step, hbusy, hen]
  rcases triggerClick_outcome p k hfresh hval with ⟨h1, h2, h3⟩ | ⟨h1, h0, h2, h3, h4⟩
  · rw [← hp1] at h1 h2 h3
    refine ⟨fun h => ?_, fun _ => ⟨h3, fun hin => ⟨?_, ?_, fun hout => ?_⟩⟩⟩
    · rw [h1] at h
      cases h
    · intro hready hx
      obtain ⟨r, _, hstep⟩ := settle_ready p2 id x hready
      show (step p2 (.settle id x)).inFlight id = false
      rw [hstep, hx, resume_fail]
      simp [failedPage, finallyBlock, catchBlock, setButtonState, setOutput, Page.inFlight,
        Page.retire]
    · intro hready r hr hx
      obtain ⟨r0, hr0, hstep⟩ := settle_ready p2 id x hready
      have : r0 = r := by
        rw [hr] at hr0
        exact (Option.some.inj hr0).symm
      subst this
      have := resume_progress p2 id r0 x hr hx
      rw [← hstep] at this
      exact this
    · have hown : p2.Owns id k := exec_owns p1 es id k h2
      have hs := settle_runStep p2 id k x hown hin
      have htc2 : p2.toastContainer = p.toastContainer := by
        rw [exec_toastContainer]
        exact step_toastContainer p (.click k)
      obtain ⟨e1, e2, e3⟩ := hs.ended hout hin
      have hpre : toastsOf id p1 es = [] := toastsOf_going p1 es id k h2 hin
      have hlast : toastsOf id p1 (es ++ [.settle id x]) = announced p2 (.settle id x) := by
        rw [toastsOf_append, hpre]
        simp [toastsOf, Event.ofRun, p2]
      refine ⟨e1, fun hx => ⟨(e2 hx).1, ?_⟩, fun hx => ?_⟩
      · rw [hlast]
        have := (e2 hx).2
        rw [htc2] at this
        cases hc : p.toastContainer <;> simp [announced, this, hc, err]
      · obtain ⟨m, hm⟩ := e3 hx
        refine ⟨m, ?_⟩
        rw [hlast, htc2] at *
        cases hc : p.toastContainer <;> simp [announced, hm, hc]
  · rw [← hp1] at h1 h2 h3 h4
    refine ⟨fun _ => ⟨h0, h2, h3, h4⟩, fun h => ?_⟩
    rw [h1] at h
    cases h

/-! ## Rasterization among other events -/

theorem inFlight_eq_isSome (p : Page) (id : Nat) : p.inFlight id = (p.run? id).isSome := by
  cases h : p.run? id with
  | none =>
    by_contra hc
    have hc : p.inFlight id = true := by simpa using hc
    obtain ⟨r, hr⟩ := run?_of_inFlight hc
    rw [h] at hr
    cases hr
  | some r => simp [inFlight_of_run? h]

theorem run?_congr {p q : Page} (h : q.runs = p.runs) (id : Nat) : q.run? id = p.run? id := by
  simp [Page.run?, h]

theorem run?_append_ne (p q : Page) (id : Nat) (r : Run)
    (h : q.runs = p.runs ++ [(p.nextId, r)]) (hid : id < p.nextId) :
    q.run? id = p.run? id := by
  have hne : ¬ p.nextId = id := by omega
  simp [Page.run?, h, List.find?_append, hne]

theorem handleFiles_output (s : Slot) (files : List File) :
    (handleFiles s files).output = s.output := by
  unfold handleFiles
  split <;> rfl

theorem triggerClick_slot (p : Page) (k j : SlotId) (h : j ≠ k) :
    (triggerClick p k).slot j = p.slot j := by
  unfold triggerClick
  cases (p.slot k).files with
  | nil => simp
  | cons file rest =>
    cases k with
    | imageToPdfInput => simp [showLoader, setOutput, setButtonState, h]
    | removeBgInput =>
      simp only
      split
      · simp [showLoader, setOutput, setButtonState, h]
      · simp [finallyBlock, catchBlock, showLoader, setOutput, setButtonState, h]
    | pdfToImageInput => simp [showLoader, setOutput, setButtonState, h]

theorem Rasterizing.transport {id : Nat} {file : File} {n : Nat} {q q1 : Page} {rs : List Ext}
    (h : Rasterizing id file n q rs) (hr : q1.run? id = q.run? id)
    (ho : q1.pdfToImage.output = q.pdfToImage.output) : Rasterizing id file n q1 rs := by
  cases h with
  | read h1 => exact .read q1 (hr.trans h1)
  | getDocument h1 => exact .getDocument q1 (hr.trans h1)
  | getPage j m h0 h1 h2 => exact .getPage q1 j m h0 (hr.trans h1) (ho.trans h2)
  | render j m h0 h1 h2 => exact .render q1 j m h0 (hr.trans h1) (ho.trans h2)
  | done h1 h2 => exact .done q1 (hr.trans h1) (ho.trans h2)

/-- What an event that is no result of the run `id`, no clear of the
rasterization slot and no click on its trigger leaves untouched. -/
theorem step_aside (q : Page) (e : Event) (id : Nat) (hA : q.Alone id)
    (hres : e.result? id = none)
    (hq : e ≠ .clear .pdfToImageInput ∧ e ≠ .click .pdfToImageInput) :
    (step q e).Alone id ∧ (step q e).run? id = q.run? id ∧
      (step q e).pdfToImage.output = q.pdfToImage.output ∧
      (e.ofRun id = true → (step q e).toasts = q.toasts) := by
  obtain ⟨a1, a2, a3⟩ := hA
  have same : ∀ q1 : Page, q1.runs = q.runs → q1.nextId = q.nextId →
      q1.Alone id ∧ q1.run? id = q.run? id := by
    intro q1 h1 h2
    refine ⟨⟨by rw [h2]; exact a1, ?_, ?_⟩, run?_congr h1 id⟩
    · rw [h1, h2]
      exact a2
    · rw [h1]
      exact a3
  have stay : (q.Alone id ∧ q.run? id = q.run? id) ∧
      q.pdfToImage.output = q.pdfToImage.output ∧ (e.ofRun id = true → q.toasts = q.toasts) :=
    ⟨⟨⟨a1, a2, a3⟩, rfl⟩, rfl, fun _ => rfl⟩
  have pack : ∀ q1 : Page, (q1.Alone id ∧ q1.run? id = q.run? id) ∧
      q1.pdfToImage.output = q.pdfToImage.output ∧ (e.ofRun id = true → q1.toasts = q.toasts) →
      q1.Alone id ∧ q1.run? id = q.run? id ∧
      q1.pdfToImage.output = q.pdfToImage.output ∧ (e.ofRun id = true → q1.toasts = q.toasts) :=
    fun _ h => ⟨h.1.1, h.1.2, h.2.1, h.2.2⟩
  apply pack
  cases e with
  | drop k files =>
    simp only [step]
    split
    · exact stay
    · refine ⟨same _ (by simp) (by simp), ?_, fun _ => by simp⟩
      cases k <;> simp [Page.setSlot, Page.slot, handleFiles_output]
  | change k files =>
    simp only [step]
    split
    · exact stay
    · refine ⟨same _ (by simp) (by simp), ?_, fun _ => by simp⟩
      cases k <;> simp [Page.setSlot, Page.slot, handleFiles_output]
  | clear k =>
    simp only [step]
    split
    · exact stay
    · refine ⟨same _ (by simp) (by simp), ?_, fun _ => by simp⟩
      cases k with
      | pdfToImageInput => exact absurd rfl hq.1
      | _ => simp [Page.setSlot]
  | click k =>
    have hk : SlotId.pdfToImageInput ≠ k := by
      intro hk
      rw [← hk] at hq
      exact hq.2 rfl
    simp only [step]
    split
    · exact stay
    · split
      · exact stay
      · have hslot := triggerClick_slot q k .pdfToImageInput hk
        have hout : (triggerClick q k).pdfToImage.output = q.pdfToImage.output := by
          have : (triggerClick q k).pdfToImage = q.pdfToImage := hslot
          rw [this]
        refine ⟨?_, hout, fun h => by simp [Event.ofRun] at h⟩
        rcases triggerClick_runs q k with ⟨h1, h2⟩ | ⟨r, hr, h1, h2⟩
        · exact same _ h1 h2
        · refine ⟨⟨by rw [h2]; omega, ?_, ?_⟩, run?_append_ne q _ id r h1 a1⟩
          · intro b hb
            rw [h1] at hb
            rw [h2]
            rcases List.mem_append.mp hb with hb | hb
            · exact Nat.lt_succ_of_lt (a2 b hb)
            · simp at hb
              rw [hb]
              exact Nat.lt_succ_self _
          · intro b hb hs
            rw [h1] at hb
            rcases List.mem_append.mp hb with hb | hb
            · exact a3 b hb hs
            · simp at hb
              rw [hb] at hs
              exact absurd (hr.symm.trans hs).symm hk
  | settle j x =>
    have hj : id ≠ j := by
      intro hj
      simp [Event.result?, hj] at hres
    simp only [step]
    cases hr : q.run? j with
    | none => exact stay
    | some r =>
      simp only
      split
      · exact stay
      · have hs := resume_runStep q j r x (inFlight_of_run? hr)
        have hmem := run?_mem hr
        have hslot : r.slot ≠ .pdfToImageInput := fun h => hj (a3 (j, r) hmem h).symm
        have hout : (resume q j r x).pdfToImage = q.pdfToImage :=
          hs.slots .pdfToImageInput (Ne.symm hslot)
        refine ⟨⟨⟨by rw [hs.nextId]; exact a1, ?_, ?_⟩, hs.others id hj⟩, by rw [hout],
          fun h => ?_⟩
        · intro b hb
          rw [hs.nextId]
          rcases hs.runs b hb with h | ⟨h1, _, _⟩
          · exact a2 b h
          · rw [h1]
            exact a2 (j, r) hmem
        · intro b hb hsl
          rcases hs.runs b hb with h | ⟨_, h2, _⟩
          · exact a3 b h hsl
          · exact absurd (h2.symm.trans hsl) hslot
        · simp [Event.ofRun, Ne.symm hj] at h
  | progress j fraction =>
    simp only [step]
    split
    · split
      · exact stay
      · refine ⟨same _ (by simp [onProgress, setButtonState]) (by simp [onProgress, setButtonState]),
          by simp [onProgress, setButtonState, Page.setSlot], fun _ => by
            simp [onProgress, setButtonState]⟩
    · exact stay
  | load =>
    simp only [step]
    split
    · exact stay
    · unfold checkFeatureAvailability
      split
      · exact ⟨same _ rfl rfl, rfl, fun _ => rfl⟩
      · exact stay

theorem pageLinks_succ (file : File) (j : Nat) :
    pageLinks file (j + 1) =
      pageLinks file j ++ [.pageLink file (j + 1) (3 / 2) (pageDownload (j + 1))] := by
  simp [pageLinks, List.range_succ]

theorem announced_same (q : Page) (e : Event) (h : (step q e).toasts = q.toasts) :
    announced q e = [] := by
  simp [announced, h]

/-- What the delivery of its next result does to a rasterization all of whose
calls succeed. -/
theorem step_own (q : Page) (id : Nat) (file : File) (n : Nat) (x : Ext) (rs : List Ext)
    (hA : q.Alone id) (hR : Rasterizing id file n q (x :: rs)) (hready : q.ready id = true) :
    (step q (.settle id x)).Alone id ∧ Rasterizing id file n (step q (.settle id x)) rs ∧
      announced q (.settle id x) =
        if rs = [] then
          (if q.toastContainer then [{ message := convertedMessage n, type := .success }]
            else [])
        else [] := by
  obtain ⟨r, hr, hstep⟩ := settle_ready q id x hready
  have hslot : r.slot = .pdfToImageInput → True := fun _ => trivial
  have halone : (step q (.settle id x)).Alone id := by
    obtain ⟨a1, a2, a3⟩ := hA
    have hs := resume_runStep q id r x (inFlight_of_run? hr)
    rw [hstep]
    refine ⟨by rw [hs.nextId]; exact a1, ?_, ?_⟩
    · intro b hb
      rw [hs.nextId]
      rcases hs.runs b hb with h | ⟨h1, _, _⟩
      · exact a2 b h
      · rw [h1]
        exact a1
    · intro b hb hsl
      rcases hs.runs b hb with h | ⟨h1, _, _⟩
      · exact a3 b h hsl
      · exact h1
  refine ⟨halone, ?_⟩
  have hdone : ∀ nodes : List OutNode,
      (finallyBlock (showToast ((setOutput q .pdfToImageInput nodes).retire id)
        (convertedMessage n) .success) .pdfToImageInput).run? id = none ∧
      (finallyBlock (showToast ((setOutput q .pdfToImageInput nodes).retire id)
        (convertedMessage n) .success) .pdfToImageInput).pdfToImage.output = nodes ∧
      (finallyBlock (showToast ((setOutput q .pdfToImageInput nodes).retire id)
        (convertedMessage n) .success) .pdfToImageInput).toasts =
        if q.toastContainer then
          q.toasts ++ [{ message := convertedMessage n, type := .success }] else q.toasts := by
    intro nodes
    refine ⟨?_, ?_, ?_⟩
    · apply run?_none_of_not_inFlight
      simp [finallyBlock, setButtonState, setOutput, Page.inFlight, Page.retire]
    · simp [finallyBlock, setButtonState, setOutput, Page.setSlot, Page.slot, showToast,
        Page.retire]
      split <;> rfl
    · simp [finallyBlock, setButtonState, setOutput, showToast_toasts]
  have hann : ∀ q1 : Page, step q (.settle id x) = q1 →
      (q1.toasts = if q.toastContainer then
          q.toasts ++ [{ message := convertedMessage n, type := .success }] else q.toasts) →
      announced q (.settle id x) =
        if q.toastContainer then [{ message := convertedMessage n, type := .success }]
        else [] := by
    intro q1 h1 h2
    rw [announced, h1, h2]
    cases q.toastContainer <;> simp
  cases hR with
  | read h1 =>
    rw [h1] at hr
    cases hr
    have e : step q (.settle id .ok) = q.suspend id (.pdfToImage file .getDocument) := hstep
    refine ⟨.getDocument _ (by rw [e]; exact run?_suspend q id _ _ h1), ?_⟩
    rw [announced_same q _ (by rw [e]; rfl)]
    simp
  | getDocument h1 =>
    rw [h1] at hr
    cases hr
    have e : step q (.settle id (.doc n)) =
        pagesLoop (setOutput q .pdfToImageInput []) id file n 1 := hstep
    cases n with
    | zero =>
      have e2 : step q (.settle id (.doc 0)) =
          finallyBlock (showToast ((setOutput q .pdfToImageInput []).retire id)
            (convertedMessage 0) .success) .pdfToImageInput := by
        rw [e]
        simp [pagesLoop]
      obtain ⟨d1, d2, d3⟩ := hdone []
      refine ⟨by rw [e2]; exact .done _ d1 (by rw [d2]; rfl), ?_⟩
      rw [hann _ e2 d3]
      simp
    | succ m =>
      have e2 : step q (.settle id (.doc (m + 1))) =
          (setOutput q .pdfToImageInput []).suspend id (.pdfToImage file (.getPage (m + 1) 1)) := by
        rw [e]
        simp [pagesLoop]
      refine ⟨?_, ?_⟩
      · rw [e2]
        have hrs : List.replicate (2 * (m + 1)) Ext.ok =
            .ok :: .ok :: List.replicate (2 * m) .ok := by
          rw [show 2 * (m + 1) = 2 * m + 1 + 1 by omega]
          rfl
        rw [hrs]
        exact .getPage _ 0 m (by omega)
          (run?_suspend _ id _ _ (by rw [setOutput_run?]; exact h1))
          (by simp [setOutput, Page.suspend, Page.setSlot, pageLinks])
      · rw [announced_same q _ (by rw [e2]; simp [setOutput])]
        simp
  | getPage j m h0 h1 h2 =>
    rw [h1] at hr
    cases hr
    have e : step q (.settle id .ok) = q.suspend id (.pdfToImage file (.render n (j + 1))) :=
      hstep
    refine ⟨.render _ j m h0 (by rw [e]; exact run?_suspend q id _ _ h1) (by rw [e]; exact h2),
      ?_⟩
    rw [announced_same q _ (by rw [e]; rfl)]
    simp
  | render j m h0 h1 h2 =>
    rw [h1] at hr
    cases hr
    have e : step q (.settle id .ok) =
        pagesLoop (setOutput q .pdfToImageInput (pageLinks file (j + 1))) id file n (j + 1 + 1) := by
      rw [hstep]
      simp only [resume]
      rw [pageLinks_succ]
      have : (q.slot .pdfToImageInput).output = pageLinks file j := h2
      rw [this]
    cases m with
    | zero =>
      have hn : ¬ j + 1 + 1 ≤ n := by omega
      have e2 : step q (.settle id .ok) =
          finallyBlock (showToast ((setOutput q .pdfToImageInput (pageLinks file (j + 1))).retire id)
            (convertedMessage n) .success) .pdfToImageInput := by
        rw [e]
        simp [pagesLoop, hn]
      obtain ⟨d1, d2, d3⟩ := hdone (pageLinks file (j + 1))
      have hjn : j + 1 = n := by omega
      refine ⟨by rw [e2]; exact .done _ d1 (by rw [d2, hjn]), ?_⟩
      rw [hann _ e2 d3]
      simp
    | succ m1 =>
      have hn : j + 1 + 1 ≤ n := by omega
      have e2 : step q (.settle id .ok) =
          (setOutput q .pdfToImageInput (pageLinks file (j + 1))).suspend id
            (.pdfToImage file (.getPage n (j + 1 + 1))) := by
        rw [e]
        simp [pagesLoop, hn]
      refine ⟨?_, ?_⟩
      · rw [e2]
        have hrs : List.replicate (2 * (m1 + 1)) Ext.ok =
            .ok :: .ok :: List.replicate (2 * m1) .ok := by
          rw [show 2 * (m1 + 1) = 2 * m1 + 1 + 1 by omega]
          rfl
        rw [hrs]
        exact .getPage _ (j + 1) m1 (by omega)
          (run?_suspend _ id _ _ (by rw [setOutput_run?]; exact h1))
          (by simp [setOutput, Page.suspend, Page.setSlot])
      · rw [announced_same q _ (by rw [e2]; simp [setOutput])]
        simp

theorem run?_spawn (p : Page) (r : Run) (hfresh : ∀ e ∈ p.runs, e.1 < p.nextId) :
    (p.spawn r).run? p.nextId = some r := by
  have hnone : p.runs.find? (fun e => decide (e.1 = p.nextId)) = none := by
    rw [List.find?_eq_none]
    intro a ha
    have := hfresh a ha
    simp
    omega
  simp [Page.run?, Page.spawn, List.find?_append, hnone]

theorem result?_eq_some {e : Event} {id : Nat} {x : Ext} (h : e.result? id = some x) :
    e = .settle id x := by
  cases e with
  | settle j y =>
    simp only [Event.result?] at h
    split at h
    · next hj =>
      cases h
      rw [hj]
    · cases h
  | _ => simp [Event.result?] at h

theorem raster_exec (id : Nat) (file : File) (n : Nat) :
    ∀ (es : List Event) (q : Page) (rs : List Ext), q.Alone id → Rasterizing id file n q rs →
      es.filterMap (Event.result? id) = rs → delivered id q es = true →
      (∀ e ∈ es, e ≠ .clear .pdfToImageInput ∧ e ≠ .click .pdfToImageInput) →
      (exec q es).pdfToImage.output = pageLinks file n ∧ (exec q es).inFlight id = false ∧
        toastsOf id q es =
          if rs = [] then []
          else if q.toastContainer then [{ message := convertedMessage n, type := .success }]
          else [] := by
  intro es
  induction es with
  | nil =>
    intro q rs _ hR hres _ _
    simp only [List.filterMap_nil] at hres
    subst hres
    cases hR with
    | done h1 h2 =>
      refine ⟨h2, ?_, by simp [toastsOf]⟩
      show q.inFlight id = false
      rw [inFlight_eq_isSome, h1]
      rfl
  | cons e es ih =>
    intro q rs hA hR hres hdel hquiet
    have hq := hquiet e (List.mem_cons_self e es)
    have hrest : ∀ e1 ∈ es, e1 ≠ .clear .pdfToImageInput ∧ e1 ≠ .click .pdfToImageInput :=
      fun e1 h1 => hquiet e1 (List.mem_cons_of_mem e h1)
    have hc : (step q e).toastContainer = q.toastContainer := step_toastContainer q e
    cases hx : e.result? id with
    | none =>
      have hres1 : es.filterMap (Event.result? id) = rs := by
        rw [List.filterMap_cons, hx] at hres
        exact hres
      have hdel1 : delivered id (step q e) es = true := by
        simp only [delivered, hx, Bool.true_and] at hdel
        exact hdel
      obtain ⟨s1, s2, s3, s4⟩ := step_aside q e id hA hx hq
      obtain ⟨i1, i2, i3⟩ := ih (step q e) rs s1 (hR.transport s2 s3) hres1 hdel1 hrest
      refine ⟨i1, i2, ?_⟩
      simp only [toastsOf]
      rw [i3, hc]
      by_cases ho : e.ofRun id = true
      · rw [if_pos ho, announced_same q e (s4 ho), List.nil_append]
      · rw [if_neg ho, List.nil_append]
    | some x =>
      have he := result?_eq_some hx
      subst he
      have hrs : ∃ rs1, rs = x :: rs1 ∧ es.filterMap (Event.result? id) = rs1 := by
        rw [List.filterMap_cons, hx] at hres
        exact ⟨_, hres.symm, rfl⟩
      obtain ⟨rs1, rfl, hres1⟩ := hrs
      have hready : q.ready id = true := by
        simp only [delivered, hx, Bool.and_eq_true] at hdel
        exact hdel.1
      have hdel1 : delivered id (step q (.settle id x)) es = true := by
        simp only [delivered, hx, Bool.and_eq_true] at hdel
        exact hdel.2
      obtain ⟨o1, o2, o3⟩ := step_own q id file n x rs1 hA hR hready
      obtain ⟨i1, i2, i3⟩ := ih (step q (.settle id x)) rs1 o1 o2 hres1 hdel1 hrest
      refine ⟨i1, i2, ?_⟩
      simp only [toastsOf]
      rw [i3, hc, o3]
      have ho : (Event.settle id x).ofRun id = true := by simp [Event.ofRun]
      rw [if_pos ho]
      by_cases hn : rs1 = []
      · simp [hn]
      · simp [hn]

/-- C8 as amended: a click on the rasterization trigger with a staged first file
starts a run; when the read, the parse (reporting `n` pages) and every fetch and
rendering succeed, and meanwhile the page dispatches anything but a clear of the
rasterization slot or another click on its trigger (no other rasterization
being in flight), the output area ends up holding exactly `n` links in page
order, the link of page `k` carrying the rendering of page `k` at scale 3/2 under
the name `page_k.png`; the run has ended, and its one toast is the success toast
reporting `n` pages (none on a page without a toast container). -/
theorem rasterization_links (p : Page) (file : File) (rest : List File) (n : Nat)
    (es : List Event)
    (hfresh : ∀ e ∈ p.runs, e.1 < p.nextId) (hbusy : p.busy = false)
    (hen : p.pdfToImage.button.disabled = false)
    (hfiles : p.pdfToImage.files = file :: rest)
    (hnone : ∀ e ∈ p.runs, e.2.slot ≠ .pdfToImageInput)
    (hres : es.filterMap (Event.result? p.nextId) = rasterResults n)
    (hdel : delivered p.nextId (step p (.click .pdfToImageInput)) es = true)
    (hquiet : ∀ e ∈ es, e ≠ .clear .pdfToImageInput ∧ e ≠ .click .pdfToImageInput) :
    (exec p (.click .pdfToImageInput :: es)).pdfToImage.output =
      (List.range n).map (fun j =>
        .pageLink file (j + 1) (3 / 2) ("page_" ++ toString (j + 1) ++ ".png")) ∧
    (exec p (.click .pdfToImageInput :: es)).inFlight p.nextId = false ∧
    toastsOf p.nextId (step p (.click .pdfToImageInput)) es =
      if p.toastContainer then
        [{ message := "Converted " ++ toString n ++ " page(s) successfully!", type := .success }]
      else [] := by
  have hen1 : (p.slot .pdfToImageInput).button.disabled = false := hen
  have hf1 : (p.slot .pdfToImageInput).files = file :: rest := hfiles
  have hc : step p (.click .pdfToImageInput) =
      (showLoader (setButtonState p .pdfToImageInput
        (busyLabel .pdfToImageInput) true) .pdfToImageInput).spawn
        (.pdfToImage file .read) := by
    simp [step, hbusy, hen1, triggerClick, hf1]
  have hruns : (step p (.click .pdfToImageInput)).runs =
      p.runs ++ [(p.nextId, .pdfToImage file .read)] := by
    rw [hc]
    simp [Page.spawn, showLoader, setOutput, setButtonState]
  have hnext : (step p (.click .pdfToImageInput)).nextId = p.nextId + 1 := by
    rw [hc]
    simp [Page.spawn, showLoader, setOutput, setButtonState]
  have hrun : (step p (.click .pdfToImageInput)).run? p.nextId =
      some (.pdfToImage file .read) := by
    rw [hc]
    have := run?_spawn (showLoader (setButtonState p .pdfToImageInput
        (busyLabel .pdfToImageInput) true) .pdfToImageInput) (.pdfToImage file .read)
      (by simpa [showLoader, setOutput, setButtonState] using hfresh)
    simpa [showLoader, setOutput, setButtonState] using this
  have hA : (step p (.click .pdfToImageInput)).Alone p.nextId := by
    refine ⟨by rw [hnext]; exact Nat.lt_succ_self _, ?_, ?_⟩
    · intro b hb
      rw [hruns] at hb
      rw [hnext]
      rcases List.mem_append.mp hb with hb | hb
      · exact Nat.lt_succ_of_lt (hfresh b hb)
      · simp at hb
        rw [hb]
        exact Nat.lt_succ_self _
    · intro b hb hs
      rw [hruns] at hb
      rcases List.mem_append.mp hb with hb | hb
      · exact absurd hs (hnone b hb)
      · simp at hb
        rw [hb]
  have hR : Rasterizing p.nextId file n (step p (.click .pdfToImageInput)) (rasterResults n) :=
    .read _ hrun
  obtain ⟨r1, r2, r3⟩ := raster_exec p.nextId file n es _ _ hA hR hres hdel hquiet
  have htc : (step p (.click .pdfToImageInput)).toastContainer = p.toastContainer :=
    step_toastContainer p _
  refine ⟨r1, r2, ?_⟩
  rw [r3, htc]
  simp [rasterResults, convertedMessage]

theorem step_imgly (p : Page) (e : Event) : (step p e).imgly = p.imgly := by
  cases e with
  | drop k files => simp only [step]; split <;> simp
  | change k files => simp only [step]; split <;> simp
  | clear k => simp only [step]; split <;> simp
  | click k =>
    simp only [step]
    split
    · rfl
    · split
      · rfl
      · unfold triggerClick
        cases (p.slot k).files with
        | nil => simp
        | cons file rest =>
          cases k with
          | imageToPdfInput => simp [Page.spawn, showLoader, setOutput, setButtonState]
          | removeBgInput =>
            simp only
            split
            · simp [Page.spawn, showLoader, setOutput, setButtonState]
            · simp [finallyBlock, catchBlock, showLoader, setOutput, setButtonState]
          | pdfToImageInput => simp [Page.spawn, showLoader, setOutput, setButtonState]
  | settle id x =>
    simp only [step]
    cases hr : p.run? id with
    | none => rfl
    | some r =>
      simp only
      split
      · rfl
      · exact (resume_runStep p id r x (inFlight_of_run? hr)).imgly
  | progress id fraction =>
    simp only [step]
    split
    · split
      · rfl
      · simp [onProgress, setButtonState]
    · rfl
  | load =>
    simp only [step]
    split
    · rfl
    · unfold checkFeatureAvailability
      split <;> rfl

theorem exec_imgly (p : Page) (es : List Event) : (exec p es).imgly = p.imgly := by
  induction es generalizing p with
  | nil => rfl
  | cons e es ih => exact (ih (step p e)).trans (step_imgly p e)

theorem step_fresh (p : Page) (e : Event) (h : ∀ a ∈ p.runs, a.1 < p.nextId) :
    ∀ a ∈ (step p e).runs, a.1 < (step p e).nextId := by
  obtain ⟨hn, hr⟩ := step_runs p e
  intro a ha
  rcases hr a ha with h1 | ⟨r, hr1, _⟩ | ⟨ha1, ha2⟩
  · exact lt_of_lt_of_le (h a h1) hn
  · exact lt_of_lt_of_le (h (a.1, r) (run?_mem hr1)) hn
  · rw [ha1, ha2]
    exact Nat.lt_succ_self _

/-- Every page reached from a page without runs hands out fresh run numbers. -/
theorem exec_fresh (p : Page) (es : List Event) (h : ∀ a ∈ p.runs, a.1 < p.nextId) :
    ∀ a ∈ (exec p es).runs, a.1 < (exec p es).nextId := by
  induction es generalizing p with
  | nil => exact h
  | cons e es ih => exact ih (step p e) (step_fresh p e h)

/-! ## Concrete runs -/

/-- The statement of C4 at a 200 by 100 image on a 77 by 100 page. -/
theorem fitToPage_largest_witness :
    (fitToPage 200 100 77 100).1 / (fitToPage 200 100 77 100).2 = (200 : ℚ) / 100 ∧
    0 < (fitToPage 200 100 77 100).1 ∧ (fitToPage 200 100 77 100).1 ≤ 77 ∧
    0 < (fitToPage 200 100 77 100).2 ∧ (fitToPage 200 100 77 100).2 ≤ 100 ∧
    ((fitToPage 200 100 77 100).1 = 77 ∨ (fitToPage 200 100 77 100).2 = 100) ∧
    ∀ a b : ℚ, 0 < a → 0 < b → a / b = 200 / 100 → a ≤ 77 → b ≤ 100 →
      a ≤ (fitToPage 200 100 77 100).1 ∧ b ≤ (fitToPage 200 100 77 100).2 :=
  fitToPage_largest 200 100 77 100 (by norm_num) (by norm_num) (by norm_num) (by norm_num)

/-- The statement of C5 at a run of the image aggregation whose first read fails. -/
theorem orchestrator_cleanup_witness :
    (step (exec (step (stagedPage true .imageToPdfInput photo) (.click .imageToPdfInput))
        [.settle 0 (.pdf 210 297)]) (.settle 0 .fail)).inFlight 0 = false ∧
    ((step (exec (step (stagedPage true .imageToPdfInput photo) (.click .imageToPdfInput))
        [.settle 0 (.pdf 210 297)]) (.settle 0 .fail)).slot .imageToPdfInput).button =
      { textContent := "Convert to PDF", disabled := false } ∧
    toastsOf 0 (step (stagedPage true .imageToPdfInput photo) (.click .imageToPdfInput))
        ([.settle 0 (.pdf 210 297)] ++ [.settle 0 .fail]) =
      [{ message := "An error occurred during PDF conversion.", type := .error }] ∧
    ((step (exec (step (stagedPage true .imageToPdfInput photo) (.click .imageToPdfInput))
        [.settle 0 (.pdf 210 297)]) (.settle 0 .fail)).slot .imageToPdfInput).output =
      [.text "An error occurred during conversion."] :=
  have h := orchestrator_cleanup (stagedPage true .imageToPdfInput photo) .imageToPdfInput
    [.settle 0 (.pdf 210 297)] .fail (by decide) (by decide) (by decide) (by decide)
  have h2 := (h.2 (by decide)).2 (by decide)
  have h3 := h2.2.2 (h2.1 (by decide) rfl)
  ⟨h2.1 (by decide) rfl, h3.1, (h3.2.1 rfl).2, (h3.2.1 rfl).1⟩

/-- C5 fails on the code on a document without `#toast-container`: the run of
the image aggregation ends on a failed read with the trigger idle and the error
text in the output area, but `showToast` returns early and the run shows no
toast at all. -/
theorem failed_run_without_toast_container :
    (step (exec (step silentPage (.click .imageToPdfInput)) [.settle 0 (.pdf 210 297)])
      (.settle 0 .fail)).inFlight 0 = false ∧
    (step (exec (step silentPage (.click .imageToPdfInput)) [.settle 0 (.pdf 210 297)])
      (.settle 0 .fail)).imageToPdf.output = [.text "An error occurred during conversion."] ∧
    toastsOf 0 (step silentPage (.click .imageToPdfInput))
      ([.settle 0 (.pdf 210 297)] ++ [.settle 0 .fail]) = [] ∧
    (step (exec (step silentPage (.click .imageToPdfInput)) [.settle 0 (.pdf 210 297)])
      (.settle 0 .fail)).toasts = [] := by
  decide

/-- C6 fails on the code: a photograph is staged, the trigger of the image slot
is clicked and the run waits for `readFileAsDataURL`; a second image dropped
meanwhile makes `renderFileList` enable the trigger while the run is in flight,
and a click then starts a second run of the same slot beside the first. -/
theorem trigger_enabled_while_running :
    (exec (startPage true)
      [.drop .imageToPdfInput [photo], .click .imageToPdfInput, .settle 0 (.pdf 210 297),
        .drop .imageToPdfInput [scan]]).inFlight 0 = true ∧
    (exec (startPage true)
      [.drop .imageToPdfInput [photo], .click .imageToPdfInput,
        .settle 0 (.pdf 210 297)]).imageToPdf.button.disabled = true ∧
    (exec (startPage true)
      [.drop .imageToPdfInput [photo], .click .imageToPdfInput, .settle 0 (.pdf 210 297),
        .drop .imageToPdfInput [scan]]).imageToPdf.button.disabled = false ∧
    (exec (startPage true)
      [.drop .imageToPdfInput [photo], .click .imageToPdfInput, .settle 0 (.pdf 210 297),
        .drop .imageToPdfInput [scan], .click .imageToPdfInput]).runs.map
        (fun e => (e.1, e.2.slot, e.2.atSync)) =
      [(0, .imageToPdfInput, false), (1, .imageToPdfInput, true)] := by
  decide

/-- C7 fails on the code for a name without a dot: `lastIndexOf` gives `-1`,
which is truthy, so `substring(0, -1)` is empty and the whole name is lost. -/
theorem downloadName_without_extension :
    lastIndexOf "photo".toList '.' = -1 ∧
    jsOr (lastIndexOf "photo".toList '.') "photo".toList.length = -1 ∧
    originalFileName "photo" = "" ∧
    downloadName "photo" = "-no-bg.png" ∧
    downloadName "photo.jpg" = "photo-no-bg.png" := by
  decide

/-- The statement of C8 as amended at the report with two pages, an image being
dropped on the image slot between the fetch and the rendering of page 1. -/
theorem rasterization_links_witness :
    (exec (stagedPage true .pdfToImageInput report)
      (.click .pdfToImageInput ::
        [.settle 0 .ok, .settle 0 (.doc 2), .settle 0 .ok, .drop .imageToPdfInput [photo],
          .settle 0 .ok, .settle 0 .ok, .settle 0 .ok])).pdfToImage.output =
      (List.range 2).map (fun j =>
        .pageLink report (j + 1) (3 / 2) ("page_" ++ toString (j + 1) ++ ".png")) :=
  (rasterization_links (stagedPage true .pdfToImageInput report) report [] 2
    [.settle 0 .ok, .settle 0 (.doc 2), .settle 0 .ok, .drop .imageToPdfInput [photo],
      .settle 0 .ok, .settle 0 .ok, .settle 0 .ok]
    (by decide) (by decide) (by decide) (by decide) (by decide) (by decide) (by decide)
    (by decide)).1

/-- C8 fails on the code: the report has two pages and every call succeeds, but a
click on the clear button between the two pages empties the output area, so it
ends up holding the link of page 2 alone while the toast reports two pages. -/
theorem rasterization_cleared_midway :
    (exec (stagedPage true .pdfToImageInput report)
      [.click .pdfToImageInput, .settle 0 .ok, .settle 0 (.doc 2), .settle 0 .ok,
        .settle 0 .ok, .clear .pdfToImageInput, .settle 0 .ok,
        .settle 0 .ok]).pdfToImage.output.filterMap OutNode.download? = ["page_2.png"] ∧
    (exec (stagedPage true .pdfToImageInput report)
      [.click .pdfToImageInput, .settle 0 .ok, .settle 0 (.doc 2), .settle 0 .ok,
        .settle 0 .ok, .clear .pdfToImageInput, .settle 0 .ok,
        .settle 0 .ok]).pdfToImage.output.length = 1 ∧
    (exec (stagedPage true .pdfToImageInput report)
      [.click .pdfToImageInput, .settle 0 .ok, .settle 0 (.doc 2), .settle 0 .ok,
        .settle 0 .ok, .clear .pdfToImageInput, .settle 0 .ok,
        .settle 0 .ok]).toasts =
      [{ message := "Converted 2 page(s) successfully!", type := .success }] ∧
    (exec (stagedPage true .pdfToImageInput report)
      [.click .pdfToImageInput, .settle 0 .ok, .settle 0 (.doc 2), .settle 0 .ok,
        .settle 0 .ok, .clear .pdfToImageInput, .settle 0 .ok,
        .settle 0 .ok]).inFlight 0 = false := by
  decide

/-- C9 fails on the code: with the library absent and a photograph staged
before the `load` event, a click on the segmentation trigger after the probe
shows a toast, rewrites the output area and leaves the trigger enabled. -/
theorem segmentation_click_after_probe :
    (exec (startPage false) [.drop .removeBgInput [photo], .load]).removeBgTabContent =
      some .featureUnavailable ∧
    (exec (startPage false) [.drop .removeBgInput [photo], .load]).toasts = [] ∧
    (exec (startPage false) [.drop .removeBgInput [photo], .load]).removeBg.output = [] ∧
    (exec (startPage false) [.drop .removeBgInput [photo], .load,
      .click .removeBgInput]).toasts =
      [{ message := "Failed to remove background.", type := .error }] ∧
    (exec (startPage false) [.drop .removeBgInput [photo], .load,
      .click .removeBgInput]).removeBg.output =
      [.text "An error occurred. The image format might not be supported."] := by
  decide

/-- C9 as amended: with the library absent the probe marks the navigation button,
stops its clicks and replaces the panel, and touches neither the segmentation
slot nor the toasts nor the runs; on every page reached later a click on the
segmentation trigger does nothing when the trigger is disabled, shows the
validation toast and nothing else when the slot is empty, and otherwise fails
at once without starting a run: the output area holds the error text, the error
toast is shown and the trigger is enabled under its idle label. -/
theorem segmentation_trigger_ungated (p : Page) (es : List Event)
    (himgly : p.imgly = false) (hbusy : p.busy = false) :
    (step p .load).removeBg = p.removeBg ∧
    (step p .load).toasts = p.toasts ∧
    (step p .load).runs = p.runs ∧
    (step p .load).removeBgNavBtn =
      p.removeBgNavBtn.map (fun _ => { disabledClass := true, clickSuppressed := true }) ∧
    (step p .load).removeBgTabContent =
      p.removeBgTabContent.map (fun _ => .featureUnavailable) ∧
    ((exec (step p .load) es).busy = false →
      ((exec (step p .load) es).removeBg.button.disabled = true →
        step (exec (step p .load) es) (.click .removeBgInput) = exec (step p .load) es) ∧
      ((exec (step p .load) es).removeBg.button.disabled = false →
        (exec (step p .load) es).removeBg.files = [] →
        step (exec (step p .load) es) (.click .removeBgInput) =
          showToast (exec (step p .load) es) "Please select an image." .error) ∧
      ((exec (step p .load) es).removeBg.button.disabled = false →
        (exec (step p .load) es).removeBg.files ≠ [] →
        (step (exec (step p .load) es) (.click .removeBgInput)).runs =
          (exec (step p .load) es).runs ∧
        (step (exec (step p .load) es) (.click .removeBgInput)).removeBg.files =
          (exec (step p .load) es).removeBg.files ∧
        (step (exec (step p .load) es) (.click .removeBgInput)).removeBg.button =
          { textContent := "Remove Background", disabled := false } ∧
        (step (exec (step p .load) es) (.click .removeBgInput)).removeBg.output =
          [.text "An error occurred. The image format might not be supported."] ∧
        (step (exec (step p .load) es) (.click .removeBgInput)).toasts =
          if (exec (step p .load) es).toastContainer then
            (exec (step p .load) es).toasts ++
              [{ message := "Failed to remove background.", type := .error }]
          else (exec (step p .load) es).toasts)) := by
  have hload : step p .load =
      { p with
        removeBgNavBtn := p.removeBgNavBtn.map fun _ =>
          { disabledClass := true, clickSuppressed := true }
        removeBgTabContent := p.removeBgTabContent.map fun _ => .featureUnavailable } := by
    simp [step, hbusy, checkFeatureAvailability, himgly]
  refine ⟨by rw [hload], by rw [hload], by rw [hload], by rw [hload], by rw [hload], ?_⟩
  have hi : (exec (step p .load) es).imgly = false := by
    rw [exec_imgly, step_imgly, himgly]
  generalize exec (step p .load) es = q at hi ⊢
  intro hb
  have hs : ∀ b : Bool, (q.slot .removeBgInput).button.disabled = b →
      q.removeBg.button.disabled = b := fun _ h => h
  refine ⟨fun hd => ?_, fun hd hf => ?_, fun hd hf => ?_⟩
  · have hd1 : (q.slot .removeBgInput).button.disabled = true := hd
    simp [step, hb, hd1]
  · have hd1 : (q.slot .removeBgInput).button.disabled = false := hd
    have hf1 : (q.slot .removeBgInput).files = [] := hf
    simp [step, hb, hd1, triggerClick, hf1, validationMessage]
  · have hd1 : (q.slot .removeBgInput).button.disabled = false := hd
    obtain ⟨file, rest, hf1⟩ : ∃ file rest, (q.slot .removeBgInput).files = file :: rest := by
      cases hq : q.removeBg.files with
      | nil => exact absurd hq hf
      | cons file rest => exact ⟨file, rest, hq⟩
    have hstep : step q (.click .removeBgInput) =
        finallyBlock (catchBlock (showLoader (setButtonState q .removeBgInput
          (busyLabel .removeBgInput) true) .removeBgInput) .removeBgInput) .removeBgInput := by
      simp [step, hb, hd1, triggerClick, hf1, showLoader, setOutput, setButtonState, hi]
    rw [hstep]
    have hf2 : q.removeBg.files = file :: rest := hf1
    refine ⟨?_, ?_, ?_, ?_, ?_⟩
    · simp [finallyBlock, catchBlock, showLoader, setOutput, setButtonState]
    · simp [finallyBlock, catchBlock, showLoader, setOutput, setButtonState, Page.setSlot,
        Page.slot, showToast]
      split <;> rfl
    · simp [finallyBlock, setButtonState, Page.setSlot, idleLabel]
    · simp [finallyBlock, catchBlock, showLoader, setOutput, setButtonState, Page.setSlot,
        Page.slot, showToast, errorText]
      split <;> rfl
    · simp [finallyBlock, catchBlock, showLoader, setOutput, setButtonState,
        showToast_toasts, errorMessage]

/-- The statement of C9 as amended at the start page without the library, with
a photograph dropped before the probe and nothing after it. -/
theorem segmentation_trigger_ungated_witness :
    (step (stagedPage false .removeBgInput photo) .load).removeBg =
      (stagedPage false .removeBgInput photo).removeBg ∧
    (step (exec (step (stagedPage false .removeBgInput photo) .load) [])
      (.click .removeBgInput)).removeBg.button =
      { textContent := "Remove Background", disabled := false } :=
  have h := segmentation_trigger_ungated (stagedPage false .removeBgInput photo) [] (by decide)
    (by decide)
  ⟨h.1, (h.2.2.2.2.2 (by decide)).2.2 (by decide) (by decide) |>.2.2.1⟩

/-- C10 fails on the code: `escapeHtml` keeps the double quote, so the name of
an image file closes the quoted `alt` attribute it is substituted into and the
rest of the name is read as further attributes. -/
theorem escapeHtml_keeps_quote :
    escapeHtml "x\x22 onerror=\x22alert(1)" = "x\x22 onerror=\x22alert(1)" ∧
    Char.ofNat 34 ∈ (escapeHtml "x\x22 onerror=\x22alert(1)").toList ∧
    (fileElement { name := "x\x22 onerror=\x22alert(1)", type := "image/png" }).thumbnail =
      .img { name := "x\x22 onerror=\x22alert(1)", type := "image/png" }
        "x\x22 onerror=\x22alert(1)" ∧
    escapeHtml "<b>&" = "&lt;b&gt;&amp;" := by
  decide

end JUSTin
